import Mathlib

/-!
# Xillen logger: a shallow embedding of `src/main.cpp`

The class `XillenLogger` is embedded as a record of its data members together
with the part of the outside world its methods touch (the files under the log
directory, the standard output stream, the system clock, the C library's local
time rendering).  Every method is a pure function on that record.  The worker
thread is embedded as a small-step machine (`workerStep`) whose steps are the
critical sections of `workerFunction`; the calls made by other threads are the
other actions of a schedule (`Action`).

Conventions.
* Time points are integer counts of `system_clock` ticks (nanoseconds).
* `int` values are integers between `-2147483648` and `2147483647`; the `int`
  expressions `maxFiles - 1` and `i + 1` of `rotateFile` wrap modulo `2 ^ 32`
  (`wrapInt`), which is what the compiled program does where the C++ standard
  leaves the overflow undefined.  `size_t` values are naturals and are only
  compared.
* A file is the list of lines streamed into it; every line is followed by the
  newline of `std::endl`, so a line of `n` bytes adds `n + 1` bytes.
* A stream writes to the file that currently has the stream's path.
* `trace` is ghost state: the sequence of calls the logger has made, kept only
  to state ordering and counting properties.
-/

namespace Xillen

/-- The enumeration `LogLevel`. -/
inductive LogLevel where
  | DEBUG
  | INFO
  | WARNING
  | ERROR
  | CRITICAL
deriving DecidableEq, Repr

/-- The integer value of an enumerator. -/
def LogLevel.val : LogLevel → Nat
  | .DEBUG => 0
  | .INFO => 1
  | .WARNING => 2
  | .ERROR => 3
  | .CRITICAL => 4

/-- The record `struct LogEntry`; `timestamp` is in clock ticks. -/
structure LogEntry where
  timestamp : Int
  level : LogLevel
  source : String
  message : String
  threadId : String
  lineNumber : Int
  fileName : String
deriving DecidableEq, Repr

/-- The constructor of `LogEntry`: it records the clock reading and the
identifier of the calling thread next to its arguments. -/
def LogEntry.create (clock : Int) (tid : String) (l : LogLevel) (s m f : String) (line : Int) :
    LogEntry :=
  { timestamp := clock, level := l, source := s, message := m, threadId := tid,
    lineNumber := line, fileName := f }

/-- Ghost events: the calls of the logger that the properties below observe. -/
inductive Event where
  | queued (entry : LogEntry)
  | handed (entry : LogEntry)
  | streamed (path : String) (line : String)
  | rotate (path : String)
  | closed (path : String)
  | rename (oldPath : String) (newPath : String)
deriving DecidableEq, Repr

/-- Control points of the thread running `workerFunction`.
`loopHead`: about to evaluate `while (running)`.
`waiting`: inside `cv.wait`, the mutex released.
`writing e`: entry `e` popped, mutex released, about to call `writeLogEntry(e)`.
`relock`: `writeLogEntry` returned, about to `lock.lock()` and test the queue.
`exited`: the function has returned. -/
inductive WorkerPc where
  | loopHead
  | waiting
  | writing (entry : LogEntry)
  | relock
  | exited
deriving DecidableEq, Repr

/-- The data members of `class XillenLogger` followed by the environment. -/
structure XillenLogger where
  logDirectory : String
  logFile : String
  minLevel : LogLevel
  consoleOutput : Bool
  fileOutput : Bool
  asyncMode : Bool
  logQueue : List LogEntry
  /-- The member `workerThread`: `none` when it owns no thread (not joinable),
  otherwise the control point of the thread it owns. -/
  workerThread : Option WorkerPc
  running : Bool
  /-- The member `fileHandles`: `none` when the map has no entry for the path,
  `some b` when it has one whose stream has `is_open() = b`. -/
  fileHandles : String → Option Bool
  maxFileSize : Nat
  /-- An `int`: between `-2147483648` and `2147483647`. -/
  maxFiles : Int
  logBuffer : List String
  bufferSize : Nat
  /-- Seconds. -/
  flushInterval : Int
  lastFlush : Int
  /-- Environment: the lines of every existing file, `none` for a missing one. -/
  files : String → Option (List String)
  /-- Environment: whether opening the path for appending succeeds. -/
  canOpen : String → Bool
  /-- Environment: whether renaming an existing file succeeds. -/
  canRename : String → String → Bool
  /-- Environment: the lines written to `std::cout`. -/
  console : List String
  /-- Environment: the reading of `system_clock::now()`. -/
  clock : Int
  /-- Environment: `put_time(localtime(t), "%Y-%m-%d %H:%M:%S")` for a `time_t`. -/
  putTime : Int → String
  /-- Ghost: worker threads started and not yet joined. -/
  workers : Nat
  /-- Ghost: `std::terminate` has been called. -/
  terminated : Bool
  /-- Ghost: see `Event`. -/
  trace : List Event

/-- Ticks of `system_clock` per second. -/
def ticksPerSecond : Int := 1000000000

/-- Ticks of `system_clock` per millisecond. -/
def ticksPerMilli : Int := 1000000

/-- The effect of `std::setfill('0') << std::setw(3)` on the next item. -/
def setw3 (item : String) : String :=
  String.mk (List.replicate (3 - item.length) '0') ++ item

/-- The method `getLevelString`. -/
def getLevelString : LogLevel → String
  | .DEBUG => "DEBUG"
  | .INFO => "INFO "
  | .WARNING => "WARN "
  | .ERROR => "ERROR"
  | .CRITICAL => "CRIT "

/-- The first two insertions of `formatLogEntry`: the local time to the second,
a dot, and the milliseconds padded to three characters. -/
def formatTimestamp (putTime : Int → String) (timestamp : Int) : String :=
  let time_t := Int.tdiv timestamp ticksPerSecond
  let ms := Int.tmod (Int.tdiv timestamp ticksPerMilli) 1000
  let ss := ""
  let ss := ss ++ putTime time_t
  let ss := ss ++ "." ++ setw3 (toString ms)
  ss

/-- The method `formatLogEntry`; `ss` is the string stream. -/
def formatLogEntry (putTime : Int → String) (entry : LogEntry) : String :=
  let ss := formatTimestamp putTime entry.timestamp
  let levelStr := getLevelString entry.level
  let source := if entry.source = "" then "MAIN" else entry.source
  let ss := ss ++ " [" ++ levelStr ++ "] [" ++ source ++ "] [" ++ entry.threadId ++ "] "
  let ss :=
    if entry.fileName ≠ "" then
      let ss := ss ++ "[" ++ entry.fileName
      let ss := if entry.lineNumber > 0 then ss ++ ":" ++ toString entry.lineNumber else ss
      ss ++ "] "
    else ss
  let ss := ss ++ entry.message
  ss

/-- The size `stat` reports for a file with these lines. -/
def fileSize (lines : List String) : Nat :=
  (lines.map fun l => l.utf8ByteSize + 1).sum

namespace XillenLogger

/-- The path of the active log file, `logDirectory + "/" + logFile`. -/
def activePath (s : XillenLogger) : String :=
  s.logDirectory ++ "/" ++ s.logFile

/-- The path of the buffer file, `logDirectory + "/buffer.log"`. -/
def bufferPath (s : XillenLogger) : String :=
  s.logDirectory ++ "/buffer.log"

/-- The value of an `int` expression whose mathematical value is `x`: 32-bit
two's complement wrap-around, as the compiled program computes it. -/
def wrapInt (x : Int) : Int :=
  (x + 2147483648) % 4294967296 - 2147483648

/-- The name `filename + "." + std::to_string(i)` for an `int` value `i`. -/
def rotated (filename : String) (i : Int) : String :=
  filename ++ "." ++ toString i

/-- The method `closeFile`. -/
def closeFile (s : XillenLogger) (filename : String) : XillenLogger :=
  if (s.fileHandles filename).isSome then
    { s with
      fileHandles := Function.update s.fileHandles filename none
      trace := s.trace ++ [Event.closed filename] }
  else s

/-- The library call `rename(oldPath, newPath)`, its result ignored as in the
source: on success the new path holds the old file and the old path is gone. -/
def renameFile (s : XillenLogger) (oldPath newPath : String) : XillenLogger :=
  { s with
    trace := s.trace ++ [Event.rename oldPath newPath]
    files :=
      match s.files oldPath with
      | none => s.files
      | some content =>
        if s.canRename oldPath newPath then
          Function.update (Function.update s.files oldPath none) newPath (some content)
        else s.files }

/-- The loop `for (int i = maxFiles - 1; i > 0; i--)` of `rotateFile`, from
the value of its counter on.  The loop runs only while the counter is
positive, so the counter is given as a natural number; the `int` sum `i + 1`
in the new name wraps. -/
def shiftLoop (filename : String) : Nat → XillenLogger → XillenLogger
  | 0, s => s
  | i + 1, s =>
    let oldFile := rotated filename ((i + 1 : Nat) : Int)
    let newFile := rotated filename (wrapInt (((i + 1 : Nat) : Int) + 1))
    let s := if (s.files oldFile).isSome then renameFile s oldFile newFile else s
    shiftLoop filename i s

/-- The method `rotateFile`. -/
def rotateFile (s : XillenLogger) (filename : String) : XillenLogger :=
  let s := { s with trace := s.trace ++ [Event.rotate filename] }
  let s := closeFile s filename
  let s := shiftLoop filename (wrapInt (s.maxFiles - 1)).toNat s
  if (s.files filename).isSome then renameFile s filename (filename ++ ".1") else s

/-- The method `shouldRotateFile`. -/
def shouldRotateFile (s : XillenLogger) (filename : String) : Bool :=
  match s.files filename with
  | some content => decide (fileSize content ≥ s.maxFileSize)
  | none => false

/-- The method `getFileHandle`; the stream it returns is `fileHandles filename`
of the result.  Opening for appending creates a missing file. -/
def getFileHandle (s : XillenLogger) (filename : String) : XillenLogger :=
  match s.fileHandles filename with
  | some _ => s
  | none =>
    if s.canOpen filename then
      { s with
        fileHandles := Function.update s.fileHandles filename (some true)
        files := Function.update s.files filename (some ((s.files filename).getD [])) }
    else
      { s with fileHandles := Function.update s.fileHandles filename (some false) }

/-- The statements `file << formattedMessage << std::endl; file.flush();` on
an open stream.  When the file has been removed from under the stream the
data is not visible at the path. -/
def streamLine (s : XillenLogger) (filename line : String) : XillenLogger :=
  let s := { s with trace := s.trace ++ [Event.streamed filename line] }
  match s.files filename with
  | some content => { s with files := Function.update s.files filename (some (content ++ [line])) }
  | none => s

/-- The method `writeToFile`. -/
def writeToFile (s : XillenLogger) (formattedMessage : String) : XillenLogger :=
  let filename := s.activePath
  let s := getFileHandle s filename
  if s.fileHandles filename = some true then
    let s := streamLine s filename formattedMessage
    if shouldRotateFile s filename then rotateFile s filename else s
  else s

/-- The colour sequence `writeToConsole` puts before the line. -/
def colour : LogLevel → String
  | .DEBUG => "\x1b[37m"
  | .INFO => "\x1b[32m"
  | .WARNING => "\x1b[33m"
  | .ERROR => "\x1b[31m"
  | .CRITICAL => "\x1b[35m"

/-- The method `writeToConsole`. -/
def writeToConsole (s : XillenLogger) (entry : LogEntry) (formattedMessage : String) :
    XillenLogger :=
  { s with console := s.console ++ [colour entry.level ++ formattedMessage ++ "\x1b[0m"] }

/-- The method `flushBuffer`. -/
def flushBuffer (s : XillenLogger) : XillenLogger :=
  if s.logBuffer = [] then s
  else
    let bufferFilename := s.bufferPath
    let s :=
      if s.canOpen bufferFilename then
        { s with
          files := Function.update s.files bufferFilename
            (some ((s.files bufferFilename).getD [] ++ s.logBuffer)) }
      else s
    { s with logBuffer := [] }

/-- The method `addToBuffer`. -/
def addToBuffer (s : XillenLogger) (message : String) : XillenLogger :=
  let s := { s with logBuffer := s.logBuffer ++ [message] }
  let s := if s.logBuffer.length ≥ s.bufferSize then flushBuffer s else s
  let now := s.clock
  if now - s.lastFlush ≥ s.flushInterval * ticksPerSecond then
    { flushBuffer s with lastFlush := now }
  else s

/-- The method `writeLogEntry`. -/
def writeLogEntry (s : XillenLogger) (entry : LogEntry) : XillenLogger :=
  let s := { s with trace := s.trace ++ [Event.handed entry] }
  let formattedMessage := formatLogEntry s.putTime entry
  let s := if s.consoleOutput then writeToConsole s entry formattedMessage else s
  let s := if s.fileOutput then writeToFile s formattedMessage else s
  addToBuffer s formattedMessage

/-- The method `log`; `tid` is the identifier of the calling thread, which the
constructor of `LogEntry` records together with the clock. -/
def log (s : XillenLogger) (level : LogLevel) (source message : String)
    (fileName : String) (lineNumber : Int) (tid : String) : XillenLogger :=
  if level.val < s.minLevel.val then s
  else
    let entry := LogEntry.create s.clock tid level source message fileName lineNumber
    if s.asyncMode then
      { s with logQueue := s.logQueue ++ [entry], trace := s.trace ++ [Event.queued entry] }
    else writeLogEntry s entry

/-- The method `closeAllFiles`. -/
def closeAllFiles (s : XillenLogger) : XillenLogger :=
  { s with fileHandles := fun _ => none }

/-- The method `startWorkerThread`.  Constructing the `std::thread` starts a
worker at the head of `workerFunction`; move-assigning it to a `workerThread`
that still owns a thread calls `std::terminate`. -/
def startWorkerThread (s : XillenLogger) : XillenLogger :=
  let s := { s with running := true }
  let s := { s with workers := s.workers + 1 }
  match s.workerThread with
  | none => { s with workerThread := some WorkerPc.loopHead }
  | some _ => { s with terminated := true }

/-- The test `while (!logQueue.empty())` made by the worker while it holds the
mutex, up to the point where it releases the mutex again: either an entry is
popped from the front, or the inner loop ends and the lock goes out of scope. -/
def popOrLeave (s : XillenLogger) : XillenLogger :=
  match s.logQueue with
  | entry :: rest => { s with logQueue := rest, workerThread := some (WorkerPc.writing entry) }
  | [] => { s with workerThread := some WorkerPc.loopHead }

/-- One step of the thread running `workerFunction`; `none` when the thread
cannot move (it is blocked in `cv.wait`, has returned, or does not exist). -/
def workerStep (s : XillenLogger) : Option XillenLogger :=
  match s.workerThread with
  | some WorkerPc.loopHead =>
    if s.running then some { s with workerThread := some WorkerPc.waiting }
    else some { s with workerThread := some WorkerPc.exited }
  | some WorkerPc.waiting =>
    if s.logQueue ≠ [] ∨ s.running = false then some (popOrLeave s) else none
  | some (WorkerPc.writing entry) =>
    some { writeLogEntry s entry with workerThread := some WorkerPc.relock }
  | some WorkerPc.relock => some (popOrLeave s)
  | some WorkerPc.exited => none
  | none => none

/-- The worker running alone for at most the given number of steps. -/
def runWorker : Nat → XillenLogger → XillenLogger
  | 0, s => s
  | n + 1, s =>
    match workerStep s with
    | some s1 => runWorker n s1
    | none => s

/-- The call `workerThread.join()` made by a thread that does not hold the
mutex while no other thread runs: the worker runs until it returns (with
`running` false it needs at most two steps per queued entry and three more),
then `workerThread` owns no thread. -/
def join (s : XillenLogger) : XillenLogger :=
  let s := runWorker (2 * s.logQueue.length + 3) s
  { s with workerThread := none, workers := s.workers - 1 }

/-- The method `stop`, called by a thread that does not hold the mutex.  (The
call from `setAsyncMode` is made with the mutex held, but there the test below
fails, `asyncMode` having just been cleared, and the join is not reached.) -/
def stop (s : XillenLogger) : XillenLogger :=
  let s :=
    if s.asyncMode && s.running then
      let s := { s with running := false }
      if s.workerThread.isSome then join s else s
    else s
  let s := flushBuffer s
  closeAllFiles s

/-- The method `setAsyncMode`. -/
def setAsyncMode (s : XillenLogger) (enable : Bool) : XillenLogger :=
  if s.asyncMode ≠ enable then
    let s := { s with asyncMode := enable }
    if enable then startWorkerThread s else stop s
  else s

/-- The constructor: the member initialisers, then the start of the worker
that the start-up method performs when `asyncMode` is set.  The arguments are
the environment the logger is created in. -/
def create (files : String → Option (List String)) (canOpen : String → Bool)
    (canRename : String → String → Bool) (putTime : Int → String) (clock : Int) :
    XillenLogger :=
  let s : XillenLogger :=
    { logDirectory := "logs", logFile := "application.log", minLevel := LogLevel.INFO,
      consoleOutput := true, fileOutput := true, asyncMode := true, logQueue := [],
      workerThread := none, running := false, fileHandles := fun _ => none,
      maxFileSize := 10 * 1024 * 1024, maxFiles := 5, logBuffer := [], bufferSize := 1000,
      flushInterval := 5, lastFlush := clock, files := files, canOpen := canOpen,
      canRename := canRename, console := [], clock := clock, putTime := putTime,
      workers := 0, terminated := false, trace := [] }
  if s.asyncMode then startWorkerThread s else s

end XillenLogger

/-- What the threads of a run can do next: a producer calls `log`, the worker
takes a step, or the clock advances. -/
inductive Action where
  | log (level : LogLevel) (source message fileName : String) (lineNumber : Int) (tid : String)
  | worker
  | tick (now : Int)

/-- The effect of one action; a worker that cannot move leaves the state as it is. -/
def step (s : XillenLogger) : Action → XillenLogger
  | Action.log level source message fileName lineNumber tid =>
    s.log level source message fileName lineNumber tid
  | Action.worker => (s.workerStep).getD s
  | Action.tick now => { s with clock := now }

/-- The state after a schedule of actions. -/
def run (s : XillenLogger) (acts : List Action) : XillenLogger :=
  acts.foldl step s

/-- The entries pushed on the queue, in order, according to the trace. -/
def queuedOf : List Event → List LogEntry
  | [] => []
  | Event.queued e :: rest => e :: queuedOf rest
  | _ :: rest => queuedOf rest

/-- The entries handed to `writeLogEntry`, in order, according to the trace. -/
def handedOf : List Event → List LogEntry
  | [] => []
  | Event.handed e :: rest => e :: handedOf rest
  | _ :: rest => handedOf rest

/-- The lines streamed to the file at `path`, in order, according to the trace. -/
def streamedTo (path : String) : List Event → List String
  | [] => []
  | Event.streamed p line :: rest =>
    if p = path then line :: streamedTo path rest else streamedTo path rest
  | _ :: rest => streamedTo path rest

/-- The number of calls of `rotateFile` on `path` according to the trace. -/
def rotations (path : String) : List Event → Nat
  | [] => 0
  | Event.rotate p :: rest => (if p = path then 1 else 0) + rotations path rest
  | _ :: rest => rotations path rest

/-- The entry the worker has popped and not yet passed to `writeLogEntry`. -/
def inFlight (s : XillenLogger) : List LogEntry :=
  match s.workerThread with
  | some (WorkerPc.writing e) => [e]
  | _ => []


/-- The rendering as C2 words it: the origin segment is `[FILE:LINE] ` whenever
the origin file is set. -/
def claimedFormat (putTime : Int → String) (entry : LogEntry) : String :=
  formatTimestamp putTime entry.timestamp ++ " [" ++ getLevelString entry.level ++ "] ["
    ++ (if entry.source = "" then "MAIN" else entry.source) ++ "] [" ++ entry.threadId ++ "] "
    ++ (if entry.fileName = "" then ""
        else "[" ++ entry.fileName ++ ":" ++ toString entry.lineNumber ++ "] ")
    ++ entry.message

/-- An entry with an origin file and no line number. -/
def entryNoLine : LogEntry :=
  { timestamp := 1700000000123456789, level := LogLevel.WARNING, source := "",
    message := "disk almost full", threadId := "42", lineNumber := 0, fileName := "main.cpp" }


/-- The number a list of decimal digit characters denotes, most significant first. -/
def digitsValue : List Char → Nat
  | [] => 0
  | c :: cs => (c.toNat - 48) * 10 ^ cs.length + digitsValue cs

/-- The fields that no write to a sink or to the flush buffer changes. -/
def Frame (s t : XillenLogger) : Prop :=
  t.logDirectory = s.logDirectory ∧ t.logFile = s.logFile ∧ t.minLevel = s.minLevel
  ∧ t.consoleOutput = s.consoleOutput ∧ t.fileOutput = s.fileOutput
  ∧ t.asyncMode = s.asyncMode ∧ t.logQueue = s.logQueue ∧ t.workerThread = s.workerThread
  ∧ t.running = s.running ∧ t.maxFileSize = s.maxFileSize ∧ t.maxFiles = s.maxFiles
  ∧ t.bufferSize = s.bufferSize ∧ t.flushInterval = s.flushInterval ∧ t.canOpen = s.canOpen
  ∧ t.canRename = s.canRename ∧ t.clock = s.clock ∧ t.putTime = s.putTime
  ∧ t.workers = s.workers ∧ t.terminated = s.terminated

/-- A local time rendering used in the examples. -/
def demoPutTime : Int → String := fun _ => "2023-11-14 22:13:20"

/-- A clock reading used in the examples. -/
def demoClock : Int := 1700000000123456789

/-- A logger in synchronous mode with minimum level WARNING and no files yet:
constructed, stopped, switched to synchronous mode, level set.  The argument
says which paths can be opened. -/
def syncLogger (canOpen : String → Bool) : XillenLogger :=
  { ((XillenLogger.create (fun _ => none) canOpen (fun _ _ => true) demoPutTime demoClock).stop.setAsyncMode
      false) with minLevel := LogLevel.WARNING }

/-- A run of `addToBuffer` calls: each input is the clock reading at the call
and the line appended. -/
def appendLines (s : XillenLogger) (inputs : List (Int × String)) : XillenLogger :=
  inputs.foldl (fun s p => XillenLogger.addToBuffer { s with clock := p.1 } p.2) s

/-- Two sink writes in synchronous mode while no file can be opened: the flush
buffer then holds two lines. -/
def unflushed : XillenLogger :=
  (((syncLogger fun _ => false).log LogLevel.ERROR "NET" "timeout" "" 0 "7").log
    LogLevel.CRITICAL "DB" "down" "" 0 "7")

/-- A freshly constructed logger: no files yet, every path can be opened and
renamed.  It is in asynchronous mode and its worker has been started. -/
def fresh : XillenLogger :=
  XillenLogger.create (fun _ => none) (fun _ => true) (fun _ _ => true) demoPutTime demoClock

/-- The entry of the call `info("APP", "shutting down")` made by thread `1`
at the clock reading of the examples. -/
def lastWords : LogEntry :=
  LogEntry.create demoClock "1" LogLevel.INFO "APP" "shutting down" "" 0

/-- The entries that the `log` calls of a schedule build and that pass the
level filter, in order; `clock` is the clock reading before the schedule. -/
def passed (minLevel : LogLevel) : Int → List Action → List LogEntry
  | _, [] => []
  | clock, Action.log level source message fileName lineNumber tid :: rest =>
    (if level.val < minLevel.val then []
      else [LogEntry.create clock tid level source message fileName lineNumber])
      ++ passed minLevel clock rest
  | clock, Action.worker :: rest => passed minLevel clock rest
  | _, Action.tick now :: rest => passed minLevel now rest

/-- The number of worker steps after which every queued entry has been handed
to `writeLogEntry`, when nothing else happens. -/
def stepsToDeliver (s : XillenLogger) : Nat :=
  match s.workerThread with
  | some WorkerPc.loopHead => 2 * s.logQueue.length + 1
  | some (WorkerPc.writing _) => 2 * s.logQueue.length + 1
  | _ => 2 * s.logQueue.length

/-- The invariant of a logger in asynchronous mode whose worker is running:
the entries handed over, the entry in flight and the queue make up, in this
order, the entries queued. -/
def Delivering (s : XillenLogger) : Prop :=
  s.asyncMode = true ∧ s.running = true
  ∧ (∃ pc, s.workerThread = some pc ∧ pc ≠ WorkerPc.exited)
  ∧ handedOf s.trace ++ inFlight s ++ s.logQueue = queuedOf s.trace

/-- A schedule used in the examples: two calls of one producer with a worker
step and a clock advance between them. -/
def demoSchedule : List Action :=
  [Action.log LogLevel.INFO "APP" "first" "" 0 "1", Action.worker,
   Action.log LogLevel.DEBUG "APP" "noise" "" 0 "1", Action.tick (demoClock + 5),
   Action.log LogLevel.ERROR "APP" "second" "main.cpp" 17 "1", Action.worker]

/-- A run of file-sink writes, one `writeToFile` call per line. -/
def writeAll (s : XillenLogger) (lines : List String) : XillenLogger :=
  lines.foldl XillenLogger.writeToFile s

/-- A synchronous logger that keeps two rotated files and rotates at ten bytes. -/
def smallFiles : XillenLogger :=
  { syncLogger (fun _ => true) with maxFileSize := 10, maxFiles := 2 }

/-- A fresh logger whose `maxFiles` has been set to `INT_MIN` and whose log
directory holds the active file and a file with the largest rotation index. -/
def minFiles : XillenLogger :=
  { fresh with
    maxFiles := -2147483648
    files := fun p =>
      if p = "logs/application.log" then some ["current"]
      else if p = "logs/application.log.2147483647" then some ["ancient"]
      else none }

/-- The number of steps the worker needs to return once `running` is false. -/
def stepsToExit (s : XillenLogger) : Nat :=
  match s.workerThread with
  | some WorkerPc.loopHead => 1
  | some WorkerPc.waiting => 2 * s.logQueue.length + 2
  | some (WorkerPc.writing _) => 2 * s.logQueue.length + 3
  | some WorkerPc.relock => 2 * s.logQueue.length + 2
  | some WorkerPc.exited => 0
  | none => 0

open XillenLogger

/-! ## Names of rotated files -/

theorem digitChar_value (d : Nat) (h : d < 10) : (Nat.digitChar d).toNat - 48 = d := by
  interval_cases d <;> decide

theorem digitsValue_toDigitsCore (fuel : Nat) :
    ∀ (n : Nat) (ds : List Char), n < fuel →
      digitsValue (Nat.toDigitsCore 10 fuel n ds) = n * 10 ^ ds.length + digitsValue ds := by
  induction fuel with
  | zero => intro n ds h; omega
  | succ fuel ih =>
    intro n ds h
    unfold Nat.toDigitsCore
    by_cases h0 : n / 10 = 0
    · have hlt : n < 10 := by omega
      have hmod : n % 10 = n := Nat.mod_eq_of_lt hlt
      simp [h0, digitsValue, hmod, digitChar_value n hlt]
    · have hlt : n / 10 < fuel := by omega
      simp only [h0, if_false]
      rw [ih (n / 10) _ hlt]
      simp only [digitsValue, List.length_cons, digitChar_value (n % 10) (Nat.mod_lt _ (by decide))]
      have hn : n = 10 * (n / 10) + n % 10 := (Nat.div_add_mod n 10).symm
      generalize n / 10 = q at hn
      generalize n % 10 = r at hn
      subst hn
      ring

theorem toString_nat_injective (i j : Nat) (h : toString i = toString j) : i = j := by
  have h1 : Nat.toDigits 10 i = Nat.toDigits 10 j := by
    have := congrArg String.data h
    simpa [toString, Nat.repr, List.asString] using this
  have hi := digitsValue_toDigitsCore (i + 1) i [] (by omega)
  have hj := digitsValue_toDigitsCore (j + 1) j [] (by omega)
  unfold Nat.toDigits at h1
  rw [h1] at hi
  simp [digitsValue] at hi hj
  omega

theorem toString_int_ofNat (n : Nat) : toString ((n : Nat) : Int) = toString n := rfl

theorem wrapInt_of_range (x : Int) (hlo : -2147483648 ≤ x) (hhi : x ≤ 2147483647) :
    wrapInt x = x := by
  unfold wrapInt
  omega

theorem wrapInt_succ (k : Nat) (hk : k ≤ 2147483646) :
    wrapInt ((k : Int) + 1) = ((k + 1 : Nat) : Int) := by
  rw [wrapInt_of_range _ (by omega) (by omega)]
  push_cast
  rfl

theorem rotated_injective (filename : String) (i j : Nat)
    (h : rotated filename (i : Int) = rotated filename (j : Int)) : i = j := by
  apply toString_nat_injective
  have := congrArg String.data h
  simp only [rotated, String.data_append, List.append_cancel_left_eq, toString_int_ofNat] at this
  exact String.ext this

theorem rotated_ne_self (filename : String) (i : Int) : rotated filename i ≠ filename := by
  intro h
  have := congrArg String.length h
  have hdot : ".".length = 1 := by decide
  simp only [rotated, String.length_append, hdot] at this
  omega

theorem rotated_one (filename : String) : rotated filename 1 = filename ++ ".1" := by
  simp only [rotated, String.append_assoc]
  rfl

/-- No positive `int` is rendered like `INT_MIN`. -/
theorem rotated_ne_int_min (filename : String) (k : Nat) (hk : k < 2147483648) :
    rotated filename (k : Int) ≠ rotated filename (-2147483648) := by
  intro h
  have h1 := congrArg String.data h
  simp only [rotated, String.data_append, List.append_cancel_left_eq, toString_int_ofNat] at h1
  have h2 : (toString k).data = Nat.toDigits 10 k := rfl
  have h3 : digitsValue (toString (-2147483648 : Int)).data = 2147483648 := by decide
  have h4 := digitsValue_toDigitsCore (k + 1) k [] (by omega)
  rw [← h1, h2] at h3
  unfold Nat.toDigits at h3
  rw [h3] at h4
  simp [digitsValue] at h4
  omega

/-! ## Rotation -/

theorem renameFile_files_of_ok (s : XillenLogger) (a b : String) (c : List String)
    (hc : s.files a = some c) (hok : s.canRename a b = true) :
    (renameFile s a b).files = Function.update (Function.update s.files a none) b (some c) := by
  simp [renameFile, hc, hok]

theorem renameFile_files_other (s : XillenLogger) (a b q : String)
    (ha : q ≠ a) (hb : q ≠ b) : (renameFile s a b).files q = s.files q := by
  simp only [renameFile]
  cases s.files a with
  | none => rfl
  | some c =>
    by_cases hok : s.canRename a b = true
    · simp only [hok, if_true]
      rw [Function.update_noteq hb, Function.update_noteq ha]
    · simp [hok]

theorem shiftLoop_succ (filename : String) (n : Nat) (s : XillenLogger) :
    shiftLoop filename (n + 1) s
      = shiftLoop filename n
          (if (s.files (rotated filename ((n + 1 : Nat) : Int))).isSome then
            renameFile s (rotated filename ((n + 1 : Nat) : Int))
              (rotated filename (wrapInt (((n + 1 : Nat) : Int) + 1)))
          else s) := rfl

theorem shiftLoop_frame (filename : String) (n : Nat) :
    ∀ s : XillenLogger,
      (shiftLoop filename n s).canRename = s.canRename
      ∧ (shiftLoop filename n s).fileHandles = s.fileHandles
      ∧ (shiftLoop filename n s).maxFiles = s.maxFiles
      ∧ (shiftLoop filename n s).logDirectory = s.logDirectory
      ∧ (shiftLoop filename n s).logFile = s.logFile
      ∧ (shiftLoop filename n s).maxFileSize = s.maxFileSize
      ∧ (shiftLoop filename n s).canOpen = s.canOpen
      ∧ ∃ rs, (shiftLoop filename n s).trace = s.trace ++ rs
          ∧ ∀ e ∈ rs, ∃ a b, e = Event.rename a b := by
  induction n with
  | zero => intro s; simp [shiftLoop]
  | succ n ih =>
    intro s
    rw [shiftLoop_succ]
    split
    · obtain ⟨h1, h2, h3, h4, h5, h6, h7, rs, h8, h9⟩ :=
        ih (renameFile s (rotated filename ((n + 1 : Nat) : Int))
          (rotated filename (wrapInt (((n + 1 : Nat) : Int) + 1))))
      refine ⟨h1, h2, h3, h4, h5, h6, h7,
        Event.rename (rotated filename ((n + 1 : Nat) : Int))
          (rotated filename (wrapInt (((n + 1 : Nat) : Int) + 1))) :: rs, ?_, ?_⟩
      · rw [h8]; simp [renameFile]
      · intro e he
        rcases List.mem_cons.mp he with h | h
        · exact ⟨_, _, h⟩
        · exact h9 e h
    · exact ih s

/-- A path that is neither an old nor a new name of the loop keeps its file. -/
theorem shiftLoop_untouched (filename : String) (n : Nat) :
    ∀ (s : XillenLogger) (q : String),
      (∀ k : Nat, 1 ≤ k → k ≤ n →
        q ≠ rotated filename (k : Int) ∧ q ≠ rotated filename (wrapInt ((k : Int) + 1))) →
      (shiftLoop filename n s).files q = s.files q := by
  induction n with
  | zero => intro s q _; rfl
  | succ n ih =>
    intro s q hq
    rw [shiftLoop_succ]
    obtain ⟨hq1, hq2⟩ := hq (n + 1) (by omega) (by omega)
    have hrest : ∀ k : Nat, 1 ≤ k → k ≤ n →
        q ≠ rotated filename (k : Int) ∧ q ≠ rotated filename (wrapInt ((k : Int) + 1)) :=
      fun k h1 h2 => hq k h1 (by omega)
    split
    · rw [ih _ q hrest, renameFile_files_other s _ _ q hq1 hq2]
    · exact ih s q hrest

/-- When no old name of the loop has a file, the loop changes no file. -/
theorem shiftLoop_idle (filename : String) (n : Nat) :
    ∀ (s : XillenLogger),
      (∀ k : Nat, 1 ≤ k → k ≤ n → s.files (rotated filename (k : Int)) = none) →
      (shiftLoop filename n s).files = s.files := by
  induction n with
  | zero => intro s _; rfl
  | succ n ih =>
    intro s h
    rw [shiftLoop_succ]
    have h1 := h (n + 1) (by omega) (by omega)
    rw [h1]
    simp only [Option.isSome_none, Bool.false_eq_true, if_false]
    exact ih s (fun k hk1 hk2 => h k hk1 (by omega))

theorem shiftLoop_shifts (filename : String) (n : Nat) (hn : n ≤ 2147483646) :
    ∀ (s : XillenLogger), (∀ a b, s.canRename a b = true) →
      ∀ (i : Nat) (c : List String), 1 ≤ i → i ≤ n →
        s.files (rotated filename (i : Int)) = some c →
        (shiftLoop filename n s).files (rotated filename ((i + 1 : Nat) : Int)) = some c := by
  induction n with
  | zero => intro s _ i c h1 h2; omega
  | succ n ih =>
    intro s hok i c h1 h2 hc
    rw [shiftLoop_succ, wrapInt_succ (n + 1) (by omega)]
    by_cases hi : i = n + 1
    · subst hi
      simp only [hc, Option.isSome_some, if_true]
      rw [shiftLoop_untouched]
      · rw [renameFile_files_of_ok s _ _ c hc (hok _ _), Function.update_same]
      · intro k hk1 hk2
        rw [wrapInt_succ k (by omega)]
        constructor
        · intro heq
          have := rotated_injective filename _ _ heq
          omega
        · intro heq
          have := rotated_injective filename _ _ heq
          omega
    · have hne1 : rotated filename (i : Int) ≠ rotated filename ((n + 1 : Nat) : Int) :=
        fun heq => hi (rotated_injective filename _ _ heq)
      have hne2 : rotated filename (i : Int) ≠ rotated filename ((n + 1 + 1 : Nat) : Int) := by
        intro heq
        have := rotated_injective filename _ _ heq
        omega
      split
      · apply ih (by omega) _ _ i c h1 (by omega)
        · rw [renameFile_files_other s _ _ _ hne1 hne2]; exact hc
        · intro a b; simp [renameFile, hok]
      · exact ih (by omega) s hok i c h1 (by omega) hc

theorem closeFile_frame (s : XillenLogger) (path : String) :
    (closeFile s path).files = s.files
    ∧ (closeFile s path).canRename = s.canRename
    ∧ (closeFile s path).maxFiles = s.maxFiles
    ∧ (closeFile s path).fileHandles = Function.update s.fileHandles path none
    ∧ (closeFile s path).trace
        = s.trace ++ (if (s.fileHandles path).isSome then [Event.closed path] else []) := by
  unfold closeFile
  by_cases h : (s.fileHandles path).isSome = true
  · simp [h]
  · simp only [h, if_false, List.append_nil, true_and]
    have hn : s.fileHandles path = none := by
      cases hh : s.fileHandles path with
      | none => rfl
      | some b => simp [hh] at h
    rw [← hn, Function.update_eq_self]
    simp

theorem rotateFile_unfold (s : XillenLogger) (path : String) :
    rotateFile s path =
      (let s1 := closeFile { s with trace := s.trace ++ [Event.rotate path] } path
       let s2 := shiftLoop path (wrapInt (s1.maxFiles - 1)).toNat s1
       if (s2.files path).isSome then renameFile s2 path (path ++ ".1") else s2) := rfl

/-- Everything `rotateFile` does when the file exists, renames succeed and
`maxFiles` is an `int` other than `INT_MIN`: (1) the handle of `path` leaves
the handle map, and in the order of calls the close comes before every
rename; (2) for every `i` with `1 ≤ i ≤ maxFiles - 1` whose file `path.i`
existed, `path.(i+1)` ends up with the content `path.i` had; (3) `path.1` ends
up with the content `path` had; (4) `path` is absent; and when `maxFiles ≤ 0`
nothing but the move of `path` to `path.1` happens to the files. -/
theorem rotateFile_effect (s : XillenLogger) (path : String) (content : List String)
    (hexists : s.files path = some content)
    (hrename : ∀ a b, s.canRename a b = true)
    (hlo : -2147483648 < s.maxFiles) (hhi : s.maxFiles ≤ 2147483647) :
    (s.rotateFile path).fileHandles = Function.update s.fileHandles path none
    ∧ (s.rotateFile path).fileHandles path = none
    ∧ (∃ rs, (s.rotateFile path).trace
          = s.trace ++ [Event.rotate path]
            ++ (if (s.fileHandles path).isSome then [Event.closed path] else []) ++ rs
        ∧ ∀ e ∈ rs, ∃ a b, e = Event.rename a b)
    ∧ (∀ (i : Int) (ci : List String), 1 ≤ i → i ≤ s.maxFiles - 1 →
        s.files (rotated path i) = some ci →
        (s.rotateFile path).files (rotated path (i + 1)) = some ci)
    ∧ (s.rotateFile path).files (path ++ ".1") = some content
    ∧ (s.rotateFile path).files path = none
    ∧ (s.maxFiles ≤ 0 →
        (s.rotateFile path).files
          = Function.update (Function.update s.files path none) (path ++ ".1") (some content)) := by
  obtain ⟨c1, c2, c3, c4, c5⟩ := closeFile_frame { s with trace := s.trace ++ [Event.rotate path] } path
  simp only at c1 c2 c3 c4 c5
  generalize hs1 : closeFile { s with trace := s.trace ++ [Event.rotate path] } path = s1 at *
  have hw : wrapInt (s1.maxFiles - 1) = s.maxFiles - 1 := by
    rw [c3]; exact wrapInt_of_range _ (by omega) (by omega)
  rw [rotateFile_unfold, hs1]
  simp only [hw]
  obtain ⟨f1, f2, f3, -, -, -, -, rs, f8, f9⟩ := shiftLoop_frame path (s.maxFiles - 1).toNat s1
  have hok1 : ∀ a b, s1.canRename a b = true := by intro a b; rw [c2]; exact hrename a b
  have hpath : (shiftLoop path (s.maxFiles - 1).toNat s1).files path = some content := by
    rw [shiftLoop_untouched, c1]
    · exact hexists
    · intro k _ _
      exact ⟨fun h => rotated_ne_self path _ h.symm, fun h => rotated_ne_self path _ h.symm⟩
  have hne : path ≠ path ++ ".1" := by
    rw [← rotated_one]; exact (rotated_ne_self path 1).symm
  rw [hpath]
  simp only [Option.isSome_some, if_true]
  have hfiles : (renameFile (shiftLoop path (s.maxFiles - 1).toNat s1) path (path ++ ".1")).files
      = Function.update (Function.update (shiftLoop path (s.maxFiles - 1).toNat s1).files
          path none) (path ++ ".1") (some content) := by
    rw [renameFile_files_of_ok _ _ _ content hpath]
    rw [f1]; exact hok1 _ _
  refine ⟨?_, ?_, ?_, ?_, ?_, ?_, ?_⟩
  · simp only [renameFile]; rw [f2, c4]
  · simp only [renameFile]; rw [f2, c4, Function.update_same]
  · refine ⟨rs ++ [Event.rename path (path ++ ".1")], ?_, ?_⟩
    · simp only [renameFile]; rw [f8, c5]; simp
    · intro e he
      rcases List.mem_append.mp he with h | h
      · exact f9 e h
      · exact ⟨_, _, List.mem_singleton.mp h⟩
  · intro i ci h1 h2 hci
    obtain ⟨n, rfl⟩ := Int.eq_ofNat_of_zero_le (by omega : 0 ≤ i)
    have hcast : ((n : Int) + 1) = ((n + 1 : Nat) : Int) := by push_cast; rfl
    rw [hfiles, hcast]
    have hq1 : rotated path ((n + 1 : Nat) : Int) ≠ path ++ ".1" := by
      rw [← rotated_one]
      intro h
      have := rotated_injective path (n + 1) 1 h
      omega
    rw [Function.update_noteq hq1, Function.update_noteq (rotated_ne_self path _)]
    apply shiftLoop_shifts path _ (by omega) s1 hok1 n ci (by omega) (by omega)
    rw [c1]; exact hci
  · rw [hfiles, Function.update_same]
  · rw [hfiles, Function.update_noteq hne, Function.update_same]
  · intro hle
    rw [hfiles]
    have h0 : (s.maxFiles - 1).toNat = 0 := by omega
    rw [h0]
    simp only [shiftLoop]
    rw [c1]

/-- What `rotateFile` does at `maxFiles = INT_MIN`: `maxFiles - 1` wraps to
`INT_MAX`, the loop starts there and moves the file with index `INT_MAX` to
the name with the wrapped index `INT_MIN`. -/
theorem rotateFile_at_int_min (s : XillenLogger) (path : String) (c c0 : List String)
    (hmax : s.maxFiles = -2147483648) (hexists : s.files path = some c)
    (htop : s.files (rotated path 2147483647) = some c0)
    (hnone : ∀ k : Nat, 1 ≤ k → k ≤ 2147483646 → s.files (rotated path (k : Int)) = none)
    (hren : ∀ a b, s.canRename a b = true) :
    (s.rotateFile path).files (rotated path 2147483647) = none
    ∧ (s.rotateFile path).files (rotated path (-2147483648)) = some c0
    ∧ (s.rotateFile path).files (path ++ ".1") = some c
    ∧ (s.rotateFile path).files path = none := by
  obtain ⟨c1, c2, c3, -, -⟩ := closeFile_frame { s with trace := s.trace ++ [Event.rotate path] } path
  simp only at c1 c2 c3
  generalize hs1 : closeFile { s with trace := s.trace ++ [Event.rotate path] } path = s1 at *
  have e1 : (wrapInt (s1.maxFiles - 1)).toNat = 2147483646 + 1 := by
    rw [c3, hmax]; decide
  have e2 : ((2147483646 + 1 : Nat) : Int) = 2147483647 := by decide
  have e3 : wrapInt (2147483647 + 1) = -2147483648 := by decide
  have hold : rotated path 2147483647 = rotated path ((2147483647 : Nat) : Int) := rfl
  have hone : path ++ ".1" = rotated path ((1 : Nat) : Int) := (rotated_one path).symm
  have hon : rotated path 2147483647 ≠ rotated path (-2147483648) := by
    rw [hold]; exact rotated_ne_int_min path _ (by decide)
  have hop : rotated path 2147483647 ≠ path := rotated_ne_self path _
  have hnp : rotated path (-2147483648) ≠ path := rotated_ne_self path _
  have ho1 : rotated path 2147483647 ≠ path ++ ".1" := by
    rw [hold, hone]
    intro h
    have := rotated_injective path _ _ h
    omega
  have hn1 : rotated path (-2147483648) ≠ path ++ ".1" := by
    rw [hone]
    exact (rotated_ne_int_min path 1 (by decide)).symm
  have hp1 : path ≠ path ++ ".1" := by
    rw [← rotated_one]; exact (rotated_ne_self path 1).symm
  have hok1 : ∀ a b, s1.canRename a b = true := by intro a b; rw [c2]; exact hren a b
  -- the first pass of the loop
  have htop1 : s1.files (rotated path 2147483647) = some c0 := by rw [c1]; exact htop
  have hs2 : (renameFile s1 (rotated path 2147483647) (rotated path (-2147483648))).files
      = Function.update (Function.update s1.files (rotated path 2147483647) none)
          (rotated path (-2147483648)) (some c0) :=
    renameFile_files_of_ok s1 _ _ c0 htop1 (hok1 _ _)
  have hloop : (shiftLoop path (2147483646 + 1) s1).files
      = Function.update (Function.update s1.files (rotated path 2147483647) none)
          (rotated path (-2147483648)) (some c0) := by
    rw [shiftLoop_succ, e2, e3, htop1]
    simp only [Option.isSome_some, if_true]
    rw [shiftLoop_idle, hs2]
    intro k hk1 hk2
    rw [hs2, Function.update_noteq (rotated_ne_int_min path k (by omega))]
    have hko : rotated path (k : Int) ≠ rotated path 2147483647 := by
      rw [hold]
      intro h
      have := rotated_injective path _ _ h
      omega
    rw [Function.update_noteq hko, c1]
    exact hnone k hk1 hk2
  obtain ⟨f1, -, -, -, -, -, -, -⟩ := shiftLoop_frame path (2147483646 + 1) s1
  have hpath : (shiftLoop path (2147483646 + 1) s1).files path = some c := by
    rw [hloop, Function.update_noteq hnp.symm, Function.update_noteq hop.symm, c1]
    exact hexists
  have hfiles : (rotateFile s path).files
      = Function.update (Function.update (shiftLoop path (2147483646 + 1) s1).files path none)
          (path ++ ".1") (some c) := by
    rw [rotateFile_unfold, hs1]
    simp only [e1, hpath, Option.isSome_some, if_true]
    rw [renameFile_files_of_ok _ _ _ c hpath]
    rw [f1]; exact hok1 _ _
  rw [hfiles, hloop]
  refine ⟨?_, ?_, ?_, ?_⟩
  · rw [Function.update_noteq ho1, Function.update_noteq hop, Function.update_noteq hon,
      Function.update_same]
  · rw [Function.update_noteq hn1, Function.update_noteq hnp, Function.update_same]
  · rw [Function.update_same]
  · rw [Function.update_noteq hp1, Function.update_same]

/-- C3, evaluated at the failing input: with `maxFiles = INT_MIN` (which is
`≤ 0`), every rename succeeding, the active file present and a file
`application.log.2147483647` present, `rotateFile` does shift a rotated file:
afterwards `application.log.2147483647` is gone and its content sits under the
name built from the wrapped index; the active file has moved to `.1`. -/
theorem rotateFile_int_min_shifts :
    minFiles.maxFiles = -2147483648
    ∧ minFiles.maxFiles ≤ 0
    ∧ minFiles.files "logs/application.log" = some ["current"]
    ∧ minFiles.files "logs/application.log.2147483647" = some ["ancient"]
    ∧ (minFiles.rotateFile "logs/application.log").files "logs/application.log.2147483647"
        = none
    ∧ (minFiles.rotateFile "logs/application.log").files "logs/application.log.-2147483648"
        = some ["ancient"]
    ∧ (minFiles.rotateFile "logs/application.log").files "logs/application.log.1"
        = some ["current"]
    ∧ (minFiles.rotateFile "logs/application.log").files "logs/application.log" = none := by
  have hf : ∀ q, minFiles.files q
      = (if q = "logs/application.log" then some ["current"]
         else if q = "logs/application.log.2147483647" then some ["ancient"]
         else none) := fun _ => rfl
  have htopname : rotated "logs/application.log" 2147483647
      = "logs/application.log.2147483647" := by decide
  have hminname : rotated "logs/application.log" (-2147483648)
      = "logs/application.log.-2147483648" := by decide
  have hnone : ∀ k : Nat, 1 ≤ k → k ≤ 2147483646 →
      minFiles.files (rotated "logs/application.log" (k : Int)) = none := by
    intro k hk1 hk2
    rw [hf, if_neg (rotated_ne_self _ _), if_neg]
    rw [← htopname]
    intro h
    have := rotated_injective "logs/application.log" k 2147483647 h
    omega
  obtain ⟨r1, r2, r3, r4⟩ := rotateFile_at_int_min minFiles "logs/application.log"
    ["current"] ["ancient"] rfl (by decide) (by rw [htopname]; decide) hnone (fun _ _ => rfl)
  have honename : "logs/application.log" ++ ".1" = "logs/application.log.1" := by decide
  rw [htopname] at r1
  rw [hminname] at r2
  rw [honename] at r3
  exact ⟨rfl, by decide, by decide, by decide, r1, r2, r3, r4⟩

/-! ## The trace -/

theorem queuedOf_append (xs ys : List Event) :
    queuedOf (xs ++ ys) = queuedOf xs ++ queuedOf ys := by
  induction xs with
  | nil => rfl
  | cons e xs ih => cases e <;> simp [queuedOf, ih]

theorem handedOf_append (xs ys : List Event) :
    handedOf (xs ++ ys) = handedOf xs ++ handedOf ys := by
  induction xs with
  | nil => rfl
  | cons e xs ih => cases e <;> simp [handedOf, ih]

theorem streamedTo_append (q : String) (xs ys : List Event) :
    streamedTo q (xs ++ ys) = streamedTo q xs ++ streamedTo q ys := by
  induction xs with
  | nil => rfl
  | cons e xs ih =>
    cases e with
    | streamed p line =>
      by_cases hp : p = q
      · simp [streamedTo, hp, ih]
      · simp [streamedTo, hp, ih]
    | _ => simp [streamedTo, ih]

theorem rotations_append (q : String) (xs ys : List Event) :
    rotations q (xs ++ ys) = rotations q xs + rotations q ys := by
  induction xs with
  | nil => simp [rotations]
  | cons e xs ih =>
    cases e <;> simp [rotations, ih]
    omega

/-- Closes and renames are invisible to the four readings of the trace. -/
theorem fileOps_invisible (evs : List Event) (p : String)
    (h : ∀ e ∈ evs, (∃ a b, e = Event.rename a b) ∨ e = Event.closed p) (q : String) :
    queuedOf evs = [] ∧ handedOf evs = [] ∧ streamedTo q evs = [] ∧ rotations q evs = 0 := by
  induction evs with
  | nil => simp [queuedOf, handedOf, streamedTo, rotations]
  | cons e evs ih =>
    have ih1 := ih (fun e he => h e (List.mem_cons_of_mem _ he))
    rcases h e (List.mem_cons_self _ _) with ⟨a, b, rfl⟩ | rfl
    · simpa [queuedOf, handedOf, streamedTo, rotations] using ih1
    · simpa [queuedOf, handedOf, streamedTo, rotations] using ih1

theorem rotateFile_trace (s : XillenLogger) (path : String) :
    ∃ evs, (rotateFile s path).trace = s.trace ++ Event.rotate path :: evs
      ∧ ∀ e ∈ evs, (∃ a b, e = Event.rename a b) ∨ e = Event.closed path := by
  obtain ⟨-, -, -, -, c5⟩ := closeFile_frame { s with trace := s.trace ++ [Event.rotate path] } path
  simp only at c5
  rw [rotateFile_unfold]
  generalize closeFile { s with trace := s.trace ++ [Event.rotate path] } path = s1 at *
  obtain ⟨-, -, -, -, -, -, -, rs, f8, f9⟩ := shiftLoop_frame path (wrapInt (s1.maxFiles - 1)).toNat s1
  simp only
  split
  · refine ⟨(if (s.fileHandles path).isSome then [Event.closed path] else []) ++ rs
      ++ [Event.rename path (path ++ ".1")], ?_, ?_⟩
    · simp only [renameFile]; rw [f8, c5]; simp
    · intro e he
      simp only [List.mem_append, List.mem_singleton] at he
      rcases he with (he | he) | he
      · right
        split at he
        · exact List.mem_singleton.mp he
        · simp at he
      · exact Or.inl (f9 e he)
      · exact Or.inl ⟨_, _, he⟩
  · refine ⟨(if (s.fileHandles path).isSome then [Event.closed path] else []) ++ rs, ?_, ?_⟩
    · rw [f8, c5]; simp
    · intro e he
      simp only [List.mem_append] at he
      rcases he with he | he
      · right
        split at he
        · exact List.mem_singleton.mp he
        · simp at he
      · exact Or.inl (f9 e he)

theorem rotateFile_readings (s : XillenLogger) (path q : String) :
    queuedOf (rotateFile s path).trace = queuedOf s.trace
    ∧ handedOf (rotateFile s path).trace = handedOf s.trace
    ∧ streamedTo q (rotateFile s path).trace = streamedTo q s.trace
    ∧ rotations q (rotateFile s path).trace
        = rotations q s.trace + (if path = q then 1 else 0) := by
  obtain ⟨evs, h1, h2⟩ := rotateFile_trace s path
  obtain ⟨i1, i2, i3, i4⟩ := fileOps_invisible evs path h2 q
  have hsplit : s.trace ++ Event.rotate path :: evs = s.trace ++ ([Event.rotate path] ++ evs) := by
    simp
  rw [h1, hsplit]
  simp only [queuedOf_append, handedOf_append, streamedTo_append, rotations_append, i1, i2, i3, i4]
  simp [queuedOf, handedOf, streamedTo, rotations]

/-! ## Which fields each method can change -/

theorem Frame.refl (s : XillenLogger) : Frame s s := by
  simp [Frame]

theorem Frame.trans {s t u : XillenLogger} (h1 : Frame s t) (h2 : Frame t u) : Frame s u := by
  unfold Frame at *
  obtain ⟨a1, a2, a3, a4, a5, a6, a7, a8, a9, a10, a11, a12, a13, a14, a15, a16, a17, a18, a19⟩ := h1
  obtain ⟨b1, b2, b3, b4, b5, b6, b7, b8, b9, b10, b11, b12, b13, b14, b15, b16, b17, b18, b19⟩ := h2
  exact ⟨b1.trans a1, b2.trans a2, b3.trans a3, b4.trans a4, b5.trans a5, b6.trans a6,
    b7.trans a7, b8.trans a8, b9.trans a9, b10.trans a10, b11.trans a11, b12.trans a12,
    b13.trans a13, b14.trans a14, b15.trans a15, b16.trans a16, b17.trans a17, b18.trans a18,
    b19.trans a19⟩

theorem Frame.activePath {s t : XillenLogger} (h : Frame s t) : t.activePath = s.activePath := by
  simp [XillenLogger.activePath, h.1, h.2.1]

theorem flushBuffer_frame (s : XillenLogger) :
    Frame s (flushBuffer s) ∧ (flushBuffer s).trace = s.trace
    ∧ (flushBuffer s).console = s.console ∧ (flushBuffer s).fileHandles = s.fileHandles
    ∧ (flushBuffer s).lastFlush = s.lastFlush := by
  unfold flushBuffer
  by_cases h : s.logBuffer = []
  · simp [h, Frame.refl]
  · by_cases ho : s.canOpen s.bufferPath = true
    · simp [h, ho, Frame]
    · simp [h, ho, Frame]

theorem addToBuffer_frame (s : XillenLogger) (message : String) :
    Frame s (addToBuffer s message) ∧ (addToBuffer s message).trace = s.trace
    ∧ (addToBuffer s message).console = s.console
    ∧ (addToBuffer s message).fileHandles = s.fileHandles := by
  unfold addToBuffer
  simp only
  have base : Frame s { s with logBuffer := s.logBuffer ++ [message] } := by simp [Frame]
  obtain ⟨g1, g2, g3, g4, g5⟩ := flushBuffer_frame { s with logBuffer := s.logBuffer ++ [message] }
  split
  · obtain ⟨k1, k2, k3, k4, k5⟩ :=
      flushBuffer_frame (flushBuffer { s with logBuffer := s.logBuffer ++ [message] })
    split
    · refine ⟨?_, ?_, ?_, ?_⟩
      · have := (base.trans g1).trans k1
        simpa [Frame] using this
      · simp only; rw [k2, g2]
      · simp only; rw [k3, g3]
      · simp only; rw [k4, g4]
    · exact ⟨base.trans g1, g2, g3, g4⟩
  · split
    · refine ⟨?_, ?_, ?_, ?_⟩
      · have := base.trans g1
        simpa [Frame] using this
      · simp only; rw [g2]
      · simp only; rw [g3]
      · simp only; rw [g4]
    · exact ⟨base, rfl, rfl, rfl⟩

theorem getFileHandle_frame (s : XillenLogger) (p : String) :
    Frame s (getFileHandle s p) ∧ (getFileHandle s p).trace = s.trace
    ∧ (getFileHandle s p).console = s.console
    ∧ (getFileHandle s p).logBuffer = s.logBuffer
    ∧ (getFileHandle s p).lastFlush = s.lastFlush := by
  unfold getFileHandle
  split
  · simp [Frame.refl]
  · split <;> simp [Frame]

/-- The stream `getFileHandle` returns is open exactly when the map already
holds an open stream for the path or holds none and the file can be opened. -/
theorem getFileHandle_open (s : XillenLogger) (p : String) :
    (getFileHandle s p).fileHandles p = some true
      ↔ (s.fileHandles p = some true ∨ (s.fileHandles p = none ∧ s.canOpen p = true)) := by
  unfold getFileHandle
  cases h : s.fileHandles p with
  | some b => simp [h]
  | none =>
    by_cases ho : s.canOpen p = true
    · simp [ho]
    · simp [ho]

theorem streamLine_frame (s : XillenLogger) (p line : String) :
    Frame s (streamLine s p line)
    ∧ (streamLine s p line).trace = s.trace ++ [Event.streamed p line]
    ∧ (streamLine s p line).console = s.console
    ∧ (streamLine s p line).logBuffer = s.logBuffer
    ∧ (streamLine s p line).lastFlush = s.lastFlush
    ∧ (streamLine s p line).fileHandles = s.fileHandles := by
  unfold streamLine
  simp only
  split <;> simp [Frame]

theorem renameFile_frame (s : XillenLogger) (a b : String) :
    Frame s (renameFile s a b) ∧ (renameFile s a b).console = s.console
    ∧ (renameFile s a b).logBuffer = s.logBuffer
    ∧ (renameFile s a b).lastFlush = s.lastFlush := by
  simp [renameFile, Frame]

theorem closeFile_keeps (s : XillenLogger) (p : String) :
    Frame s (closeFile s p) ∧ (closeFile s p).console = s.console
    ∧ (closeFile s p).logBuffer = s.logBuffer
    ∧ (closeFile s p).lastFlush = s.lastFlush := by
  unfold closeFile
  split <;> simp [Frame]

theorem shiftLoop_keeps (p : String) (n : Nat) :
    ∀ s : XillenLogger, Frame s (shiftLoop p n s) ∧ (shiftLoop p n s).console = s.console
      ∧ (shiftLoop p n s).logBuffer = s.logBuffer
      ∧ (shiftLoop p n s).lastFlush = s.lastFlush := by
  induction n with
  | zero => intro s; exact ⟨Frame.refl s, rfl, rfl, rfl⟩
  | succ n ih =>
    intro s
    simp only [shiftLoop]
    split
    · obtain ⟨r1, r2, r3, r4⟩ := renameFile_frame s (rotated p ((n + 1 : Nat) : Int)) (rotated p (wrapInt (((n + 1 : Nat) : Int) + 1)))
      obtain ⟨i1, i2, i3, i4⟩ := ih (renameFile s (rotated p ((n + 1 : Nat) : Int)) (rotated p (wrapInt (((n + 1 : Nat) : Int) + 1))))
      exact ⟨r1.trans i1, i2.trans r2, i3.trans r3, i4.trans r4⟩
    · exact ih s

theorem rotateFile_frame (s : XillenLogger) (p : String) :
    Frame s (rotateFile s p) ∧ (rotateFile s p).console = s.console
    ∧ (rotateFile s p).logBuffer = s.logBuffer
    ∧ (rotateFile s p).lastFlush = s.lastFlush := by
  rw [rotateFile_unfold]
  have base : Frame s { s with trace := s.trace ++ [Event.rotate p] } := by simp [Frame]
  obtain ⟨c1, c2, c3, c4⟩ := closeFile_keeps { s with trace := s.trace ++ [Event.rotate p] } p
  simp only at c2 c3 c4
  generalize closeFile { s with trace := s.trace ++ [Event.rotate p] } p = s1 at *
  obtain ⟨f1, f2, f3, f4⟩ := shiftLoop_keeps p (wrapInt (s1.maxFiles - 1)).toNat s1
  simp only
  generalize shiftLoop p (wrapInt (s1.maxFiles - 1)).toNat s1 = s2 at *
  split
  · obtain ⟨r1, r2, r3, r4⟩ := renameFile_frame s2 p (p ++ ".1")
    exact ⟨((base.trans c1).trans f1).trans r1, (r2.trans f2).trans c2, (r3.trans f3).trans c3,
      (r4.trans f4).trans c4⟩
  · exact ⟨(base.trans c1).trans f1, f2.trans c2, f3.trans c3, f4.trans c4⟩

theorem writeToFile_frame (s : XillenLogger) (msg : String) :
    Frame s (writeToFile s msg) ∧ (writeToFile s msg).console = s.console
    ∧ (writeToFile s msg).logBuffer = s.logBuffer
    ∧ (writeToFile s msg).lastFlush = s.lastFlush := by
  unfold writeToFile
  simp only
  obtain ⟨g1, -, g3, g4, g5⟩ := getFileHandle_frame s s.activePath
  generalize getFileHandle s s.activePath = s1 at *
  split
  · obtain ⟨l1, -, l3, l4, l5, -⟩ := streamLine_frame s1 s.activePath msg
    generalize streamLine s1 s.activePath msg = s2 at *
    split
    · obtain ⟨r1, r2, r3, r4⟩ := rotateFile_frame s2 s.activePath
      exact ⟨(g1.trans l1).trans r1, (r2.trans l3).trans g3, (r3.trans l4).trans g4,
        (r4.trans l5).trans g5⟩
    · exact ⟨g1.trans l1, l3.trans g3, l4.trans g4, l5.trans g5⟩
  · exact ⟨g1, g3, g4, g5⟩

/-- What `writeToFile` streams: one line to the active file when its stream is
open, nothing otherwise; and it adds nothing to the queue and hand-over
readings of the trace. -/
theorem writeToFile_readings (s : XillenLogger) (msg q : String) :
    streamedTo q (writeToFile s msg).trace
      = streamedTo q s.trace
        ++ (if q = s.activePath ∧ (s.fileHandles s.activePath = some true
              ∨ (s.fileHandles s.activePath = none ∧ s.canOpen s.activePath = true))
            then [msg] else [])
    ∧ queuedOf (writeToFile s msg).trace = queuedOf s.trace
    ∧ handedOf (writeToFile s msg).trace = handedOf s.trace := by
  unfold writeToFile
  simp only
  have hopen := getFileHandle_open s s.activePath
  obtain ⟨-, g2, -, -, -⟩ := getFileHandle_frame s s.activePath
  generalize getFileHandle s s.activePath = s1 at *
  by_cases ho : s1.fileHandles s.activePath = some true
  · simp only [ho, if_true]
    have hcond := hopen.mp ho
    obtain ⟨-, l2, -, -, -, -⟩ := streamLine_frame s1 s.activePath msg
    generalize streamLine s1 s.activePath msg = s2 at *
    have hs2 : streamedTo q s2.trace
        = streamedTo q s.trace ++ (if q = s.activePath then [msg] else []) := by
      rw [l2, g2, streamedTo_append]
      by_cases hq : s.activePath = q
      · simp [streamedTo, hq]
      · have hq2 : ¬ q = s.activePath := fun h => hq h.symm
        simp [streamedTo, hq, hq2]
    have hq2 : queuedOf s2.trace = queuedOf s.trace := by
      rw [l2, g2, queuedOf_append]; simp [queuedOf]
    have hh2 : handedOf s2.trace = handedOf s.trace := by
      rw [l2, g2, handedOf_append]; simp [handedOf]
    have hsimp : (q = s.activePath ∧ (s.fileHandles s.activePath = some true
              ∨ (s.fileHandles s.activePath = none ∧ s.canOpen s.activePath = true)))
        ↔ q = s.activePath := ⟨fun h => h.1, fun h => ⟨h, hcond⟩⟩
    simp only [hsimp]
    split
    · obtain ⟨r1, r2, r3, -⟩ := rotateFile_readings s2 s.activePath q
      rw [r1, r2, r3]
      exact ⟨hs2, hq2, hh2⟩
    · exact ⟨hs2, hq2, hh2⟩
  · have hcond : ¬ (s.fileHandles s.activePath = some true
              ∨ (s.fileHandles s.activePath = none ∧ s.canOpen s.activePath = true)) :=
      fun h => ho (hopen.mpr h)
    simp only [ho, if_false, hcond, and_false, List.append_nil]
    rw [g2]
    exact ⟨rfl, rfl, rfl⟩

theorem writeLogEntry_effects (s : XillenLogger) (entry : LogEntry) :
    Frame s (writeLogEntry s entry)
    ∧ (writeLogEntry s entry).console
        = s.console ++ (if s.consoleOutput = true
            then [colour entry.level ++ formatLogEntry s.putTime entry ++ "\x1b[0m"] else [])
    ∧ (∀ q, streamedTo q (writeLogEntry s entry).trace
        = streamedTo q s.trace
          ++ (if s.fileOutput = true ∧ q = s.activePath
                ∧ (s.fileHandles s.activePath = some true
                    ∨ (s.fileHandles s.activePath = none ∧ s.canOpen s.activePath = true))
              then [formatLogEntry s.putTime entry] else []))
    ∧ queuedOf (writeLogEntry s entry).trace = queuedOf s.trace
    ∧ handedOf (writeLogEntry s entry).trace = handedOf s.trace ++ [entry] := by
  unfold writeLogEntry
  simp only
  generalize formatLogEntry s.putTime entry = line
  have b0 : Frame s { s with trace := s.trace ++ [Event.handed entry] } := by simp [Frame]
  have t0 : ∀ q, streamedTo q (s.trace ++ [Event.handed entry]) = streamedTo q s.trace := by
    intro q; rw [streamedTo_append]; simp [streamedTo]
  have q0 : queuedOf (s.trace ++ [Event.handed entry]) = queuedOf s.trace := by
    rw [queuedOf_append]; simp [queuedOf]
  have h0 : handedOf (s.trace ++ [Event.handed entry]) = handedOf s.trace ++ [entry] := by
    rw [handedOf_append]; simp [handedOf]
  -- the state after the console step
  have hcon : ∃ s1 : XillenLogger,
      (if s.consoleOutput = true then
          writeToConsole { s with trace := s.trace ++ [Event.handed entry] } entry line
        else { s with trace := s.trace ++ [Event.handed entry] }) = s1
      ∧ Frame s s1 ∧ s1.trace = s.trace ++ [Event.handed entry]
      ∧ s1.console = s.console ++ (if s.consoleOutput = true
            then [colour entry.level ++ line ++ "\x1b[0m"] else [])
      ∧ s1.fileHandles = s.fileHandles ∧ s1.files = s.files := by
    refine ⟨_, rfl, ?_⟩
    by_cases hc : s.consoleOutput = true
    · simp [hc, writeToConsole, Frame]
    · simp [hc, Frame]
  obtain ⟨s1, e1, f1, tr1, c1, fh1, fl1⟩ := hcon
  rw [e1]
  have hfo : s1.fileOutput = s.fileOutput := f1.2.2.2.2.1
  have hap : s1.activePath = s.activePath := f1.activePath
  have hco : s1.canOpen = s.canOpen := f1.2.2.2.2.2.2.2.2.2.2.2.2.2.1
  have hfile : ∃ s2 : XillenLogger,
      (if s1.fileOutput = true then writeToFile s1 line else s1) = s2
      ∧ Frame s s2 ∧ s2.console = s1.console
      ∧ (∀ q, streamedTo q s2.trace = streamedTo q s.trace
          ++ (if s.fileOutput = true ∧ q = s.activePath
                ∧ (s.fileHandles s.activePath = some true
                    ∨ (s.fileHandles s.activePath = none ∧ s.canOpen s.activePath = true))
              then [line] else []))
      ∧ queuedOf s2.trace = queuedOf s.trace
      ∧ handedOf s2.trace = handedOf s.trace ++ [entry] := by
    refine ⟨_, rfl, ?_⟩
    by_cases hf : s.fileOutput = true
    · have hf1 : s1.fileOutput = true := hfo.trans hf
      rw [if_pos hf1]
      simp only [hf, true_and]
      obtain ⟨w1, w2, -, -⟩ := writeToFile_frame s1 line
      refine ⟨f1.trans w1, w2, ?_, ?_, ?_⟩
      · intro q
        obtain ⟨r1, -, -⟩ := writeToFile_readings s1 line q
        rw [r1, tr1, t0 q, hap, fh1, hco]
      · obtain ⟨-, r2, -⟩ := writeToFile_readings s1 line ""
        rw [r2, tr1, q0]
      · obtain ⟨-, -, r3⟩ := writeToFile_readings s1 line ""
        rw [r3, tr1, h0]
    · have hf1 : ¬ s1.fileOutput = true := fun h => hf (hfo.symm.trans h)
      rw [if_neg hf1]
      refine ⟨f1, rfl, ?_, ?_, ?_⟩
      · intro q
        rw [if_neg (fun h => hf h.1), List.append_nil, tr1, t0 q]
      · rw [tr1, q0]
      · rw [tr1, h0]
  obtain ⟨s2, e2, f2, c2, st2, qu2, ha2⟩ := hfile
  rw [e2]
  obtain ⟨a1, a2, a3, -⟩ := addToBuffer_frame s2 line
  refine ⟨f2.trans a1, ?_, ?_, ?_, ?_⟩
  · rw [a3, c2, c1]
  · intro q; rw [a2]; exact st2 q
  · rw [a2]; exact qu2
  · rw [a2]; exact ha2

/-- C1 (amended).  A call of `log` below the minimum level returns the state
unchanged.  At or above it: in asynchronous mode the queue grows by exactly
the one entry built from the arguments and no sink, file or buffer changes;
in synchronous mode the console receives exactly one line when it is enabled
(none otherwise), and the file sink receives exactly one line when it is
enabled and the stream of the active file is open (already open, or not yet
in the map and openable), none otherwise.  With minimum level WARNING, calls
at DEBUG and INFO are such no-ops and WARNING, ERROR, CRITICAL pass. -/
theorem log_filter (s : XillenLogger) (level : LogLevel) (source message fileName : String)
    (lineNumber : Int) (tid : String) :
    (level.val < s.minLevel.val → s.log level source message fileName lineNumber tid = s)
    ∧ (¬ level.val < s.minLevel.val → s.asyncMode = true →
        (s.log level source message fileName lineNumber tid).logQueue
          = s.logQueue ++ [LogEntry.create s.clock tid level source message fileName lineNumber]
        ∧ (LogEntry.create s.clock tid level source message fileName lineNumber).level = level
        ∧ (LogEntry.create s.clock tid level source message fileName lineNumber).source = source
        ∧ (LogEntry.create s.clock tid level source message fileName lineNumber).message = message
        ∧ (s.log level source message fileName lineNumber tid).console = s.console
        ∧ (s.log level source message fileName lineNumber tid).files = s.files
        ∧ (s.log level source message fileName lineNumber tid).fileHandles = s.fileHandles
        ∧ (s.log level source message fileName lineNumber tid).logBuffer = s.logBuffer
        ∧ ∀ q, streamedTo q (s.log level source message fileName lineNumber tid).trace
            = streamedTo q s.trace)
    ∧ (¬ level.val < s.minLevel.val → s.asyncMode = false →
        (s.log level source message fileName lineNumber tid).logQueue = s.logQueue
        ∧ (s.log level source message fileName lineNumber tid).console
            = s.console ++ (if s.consoleOutput = true then
                [colour level ++ formatLogEntry s.putTime
                  (LogEntry.create s.clock tid level source message fileName lineNumber)
                  ++ "\x1b[0m"]
              else [])
        ∧ ∀ q, streamedTo q (s.log level source message fileName lineNumber tid).trace
            = streamedTo q s.trace
              ++ (if s.fileOutput = true ∧ q = s.activePath
                    ∧ (s.fileHandles s.activePath = some true
                        ∨ (s.fileHandles s.activePath = none ∧ s.canOpen s.activePath = true))
                  then [formatLogEntry s.putTime
                    (LogEntry.create s.clock tid level source message fileName lineNumber)]
                  else []))
    ∧ (s.minLevel = LogLevel.WARNING →
        s.log LogLevel.DEBUG source message fileName lineNumber tid = s
        ∧ s.log LogLevel.INFO source message fileName lineNumber tid = s
        ∧ ¬ LogLevel.WARNING.val < s.minLevel.val
        ∧ ¬ LogLevel.ERROR.val < s.minLevel.val
        ∧ ¬ LogLevel.CRITICAL.val < s.minLevel.val) := by
  refine ⟨?_, ?_, ?_, ?_⟩
  · intro h
    simp [log, h]
  · intro h ha
    have hl : s.log level source message fileName lineNumber tid
        = { s with
            logQueue := s.logQueue
              ++ [LogEntry.create s.clock tid level source message fileName lineNumber]
            trace := s.trace
              ++ [Event.queued
                    (LogEntry.create s.clock tid level source message fileName lineNumber)] } := by
      simp [log, h, ha]
    rw [hl]
    refine ⟨rfl, rfl, rfl, rfl, rfl, rfl, rfl, rfl, ?_⟩
    intro q
    simp only [streamedTo_append]
    simp [streamedTo]
  · intro h ha
    have hl : s.log level source message fileName lineNumber tid
        = s.writeLogEntry
            (LogEntry.create s.clock tid level source message fileName lineNumber) := by
      simp [log, h, ha]
    rw [hl]
    obtain ⟨f, c, st, -, -⟩ := writeLogEntry_effects s
      (LogEntry.create s.clock tid level source message fileName lineNumber)
    exact ⟨f.2.2.2.2.2.2.1, c, st⟩
  · intro hm
    simp [log, hm, LogLevel.val]

/-- C1 as stated fails: in synchronous mode with the file sink enabled, an
ERROR call above the minimum level WARNING writes no line to the file sink
when the active file cannot be opened; the console still receives its line. -/
theorem log_sync_file_unopenable :
    (syncLogger fun _ => false).asyncMode = false
    ∧ (syncLogger fun _ => false).fileOutput = true
    ∧ (syncLogger fun _ => false).consoleOutput = true
    ∧ (syncLogger fun _ => false).minLevel = LogLevel.WARNING
    ∧ ((syncLogger fun _ => false).log LogLevel.ERROR "NET" "timeout" "" 0 "7").trace
        = [Event.handed (LogEntry.create demoClock "7" LogLevel.ERROR "NET" "timeout" "" 0)]
    ∧ streamedTo "logs/application.log"
        ((syncLogger fun _ => false).log LogLevel.ERROR "NET" "timeout" "" 0 "7").trace = []
    ∧ ((syncLogger fun _ => false).log LogLevel.ERROR "NET" "timeout" "" 0 "7").files
        "logs/application.log" = none
    ∧ ((syncLogger fun _ => false).log LogLevel.ERROR "NET" "timeout" "" 0 "7").console
        = ["\x1b[31m2023-11-14 22:13:20.123 [ERROR] [NET] [7] timeout\x1b[0m"] := by
  decide

/-- C1 (amended) at a synchronous logger whose files can be opened: an ERROR
call above the minimum level WARNING streams exactly its line to the file. -/
theorem log_filter_witness :
    (¬ LogLevel.ERROR.val < (syncLogger fun _ => true).minLevel.val)
    ∧ (syncLogger fun _ => true).asyncMode = false
    ∧ streamedTo "logs/application.log"
        ((syncLogger fun _ => true).log LogLevel.ERROR "NET" "timeout" "" 0 "7").trace
        = ["2023-11-14 22:13:20.123 [ERROR] [NET] [7] timeout"] :=
  ⟨by decide, by decide,
    by
      have h := ((log_filter (syncLogger fun _ => true) LogLevel.ERROR "NET" "timeout" "" 0
        "7").2.2.1 (by decide) (by decide)).2.2 "logs/application.log"
      rw [h]
      decide⟩

/-- C2 (amended).  `formatLogEntry` returns the timestamp, then ` [LEVEL] `,
`[SOURCE] `, `[THREAD-ID] `, the origin segment and the message unchanged:
LEVEL is the five-character label of the level, SOURCE is the source or
`MAIN` when it is empty, and the origin segment is empty when the origin file
is unset, `[FILE:LINE] ` when it is set and the line is positive, and
`[FILE] ` when it is set and the line is zero or negative. -/
theorem formatLogEntry_layout (putTime : Int → String) (entry : LogEntry) :
    formatLogEntry putTime entry =
      formatTimestamp putTime entry.timestamp ++ " [" ++ getLevelString entry.level ++ "] ["
        ++ (if entry.source = "" then "MAIN" else entry.source) ++ "] [" ++ entry.threadId ++ "] "
        ++ (if entry.fileName = "" then ""
            else if 0 < entry.lineNumber then
              "[" ++ entry.fileName ++ ":" ++ toString entry.lineNumber ++ "] "
            else "[" ++ entry.fileName ++ "] ")
        ++ entry.message
    ∧ (getLevelString entry.level).length = 5
    ∧ getLevelString LogLevel.DEBUG = "DEBUG" ∧ getLevelString LogLevel.INFO = "INFO "
    ∧ getLevelString LogLevel.WARNING = "WARN " ∧ getLevelString LogLevel.ERROR = "ERROR"
    ∧ getLevelString LogLevel.CRITICAL = "CRIT " := by
  refine ⟨?_, ?_, rfl, rfl, rfl, rfl, rfl⟩
  · unfold formatLogEntry
    by_cases hf : entry.fileName = ""
    · simp [hf]
    · by_cases hl : 0 < entry.lineNumber
      · simp only [ne_eq, hf, not_false_eq_true, if_true, if_false, gt_iff_lt, hl,
          String.append_assoc]
      · simp only [ne_eq, hf, not_false_eq_true, if_true, if_false, gt_iff_lt, hl,
          String.append_assoc]
  · cases entry.level <;> decide

/-- C2 as stated fails: with the origin file set and the line left at zero the
origin segment is `[main.cpp] `, not `[main.cpp:0] `. -/
theorem formatLogEntry_line_zero :
    formatLogEntry (fun _ => "2023-11-14 22:13:20") entryNoLine
      = "2023-11-14 22:13:20.123 [WARN ] [MAIN] [42] [main.cpp] disk almost full"
    ∧ claimedFormat (fun _ => "2023-11-14 22:13:20") entryNoLine
      = "2023-11-14 22:13:20.123 [WARN ] [MAIN] [42] [main.cpp:0] disk almost full"
    ∧ formatLogEntry (fun _ => "2023-11-14 22:13:20") entryNoLine
      ≠ claimedFormat (fun _ => "2023-11-14 22:13:20") entryNoLine := by
  decide

/-! ## The flush buffer -/

theorem addToBuffer_below (s : XillenLogger) (m : String)
    (hlen : s.logBuffer.length + 1 < s.bufferSize)
    (htime : s.clock - s.lastFlush < s.flushInterval * ticksPerSecond) :
    addToBuffer s m = { s with logBuffer := s.logBuffer ++ [m] } := by
  have h1 : ¬ (s.bufferSize ≤ s.logBuffer.length + 1) := by omega
  unfold addToBuffer
  simp only [List.length_append, List.length_singleton, ge_iff_le, if_neg h1,
    if_neg (not_le.mpr htime)]

theorem addToBuffer_reach (s : XillenLogger) (m : String)
    (hlen : s.bufferSize ≤ s.logBuffer.length + 1)
    (htime : s.clock - s.lastFlush < s.flushInterval * ticksPerSecond)
    (hopen : s.canOpen s.bufferPath = true) :
    (addToBuffer s m).logBuffer = []
    ∧ (addToBuffer s m).files s.bufferPath
        = some ((s.files s.bufferPath).getD [] ++ (s.logBuffer ++ [m])) := by
  unfold addToBuffer
  simp only [List.length_append, List.length_singleton, ge_iff_le]
  rw [if_pos hlen]
  have hfl : flushBuffer { s with logBuffer := s.logBuffer ++ [m] }
      = { s with
          logBuffer := []
          files := Function.update s.files s.bufferPath
            (some ((s.files s.bufferPath).getD [] ++ (s.logBuffer ++ [m]))) } := by
    unfold flushBuffer
    have hb : ({ s with logBuffer := s.logBuffer ++ [m] } : XillenLogger).bufferPath
        = s.bufferPath := rfl
    simp [hb, hopen]
  rw [hfl]
  simp only [if_neg (not_le.mpr htime), Function.update_same, and_self]

theorem appendLines_below (inputs : List (Int × String)) :
    ∀ s : XillenLogger,
      (∀ p ∈ inputs, p.1 - s.lastFlush < s.flushInterval * ticksPerSecond) →
      s.logBuffer.length + inputs.length < s.bufferSize →
      (appendLines s inputs).logBuffer = s.logBuffer ++ inputs.map Prod.snd
      ∧ (appendLines s inputs).files = s.files
      ∧ (appendLines s inputs).lastFlush = s.lastFlush
      ∧ (appendLines s inputs).flushInterval = s.flushInterval
      ∧ (appendLines s inputs).bufferSize = s.bufferSize
      ∧ (appendLines s inputs).canOpen = s.canOpen
      ∧ (appendLines s inputs).bufferPath = s.bufferPath := by
  induction inputs with
  | nil => intro s _ _; simp [appendLines]
  | cons p rest ih =>
    intro s htime hlen
    simp only [List.length_cons] at hlen
    have hstep : addToBuffer { s with clock := p.1 } p.2
        = { s with clock := p.1, logBuffer := s.logBuffer ++ [p.2] } :=
      addToBuffer_below { s with clock := p.1 } p.2 (by simp only; omega)
        (htime p (List.mem_cons_self _ _))
    have hfold : appendLines s (p :: rest)
        = appendLines { s with clock := p.1, logBuffer := s.logBuffer ++ [p.2] } rest := by
      simp only [appendLines, List.foldl_cons]
      rw [hstep]
    rw [hfold]
    obtain ⟨i1, i2, i3, i4, i5, i6, i7⟩ :=
      ih { s with clock := p.1, logBuffer := s.logBuffer ++ [p.2] }
        (fun q hq => htime q (List.mem_cons_of_mem _ hq))
        (by simp only [List.length_append, List.length_singleton]; omega)
    refine ⟨?_, i2, i3, i4, i5, i6, i7⟩
    rw [i1]
    simp

theorem appendLines_snoc (s : XillenLogger) (inputs : List (Int × String)) (p : Int × String) :
    appendLines s (inputs ++ [p])
      = addToBuffer { appendLines s inputs with clock := p.1 } p.2 := by
  simp [appendLines, List.foldl_append]

/-- C5.  With flush threshold `B ≥ 1`, an empty in-memory buffer, an empty (or
not yet existing) buffer file that can be opened, and no call at which the
flush interval has elapsed: after `B` calls of `addToBuffer` the buffer file
holds exactly the `B` lines in the order of the calls and the in-memory buffer
is empty; after each of the first `B - 1` calls the files are as before and
the in-memory buffer holds all lines appended so far. -/
theorem addToBuffer_flush_by_count (s : XillenLogger) (B : Nat) (hB : 1 ≤ B)
    (hsize : s.bufferSize = B) (hempty : s.logBuffer = [])
    (hfile : (s.files s.bufferPath).getD [] = [])
    (hopen : s.canOpen s.bufferPath = true)
    (inputs : List (Int × String)) (hlen : inputs.length = B)
    (htime : ∀ p ∈ inputs, p.1 - s.lastFlush < s.flushInterval * ticksPerSecond) :
    (appendLines s inputs).files s.bufferPath = some (inputs.map Prod.snd)
    ∧ (appendLines s inputs).logBuffer = []
    ∧ ∀ k, k < B →
        (appendLines s (inputs.take k)).files = s.files
        ∧ (appendLines s (inputs.take k)).logBuffer = (inputs.take k).map Prod.snd := by
  have hpre : ∀ k, k < B →
      (appendLines s (inputs.take k)).logBuffer = (inputs.take k).map Prod.snd
      ∧ (appendLines s (inputs.take k)).files = s.files
      ∧ (appendLines s (inputs.take k)).lastFlush = s.lastFlush
      ∧ (appendLines s (inputs.take k)).flushInterval = s.flushInterval
      ∧ (appendLines s (inputs.take k)).bufferSize = s.bufferSize
      ∧ (appendLines s (inputs.take k)).canOpen = s.canOpen
      ∧ (appendLines s (inputs.take k)).bufferPath = s.bufferPath := by
    intro k hk
    have := appendLines_below (inputs.take k) s
      (fun p hp => htime p (List.mem_of_mem_take hp))
      (by rw [hempty, List.length_take]; simp only [List.length_nil]; omega)
    rw [hempty] at this
    simpa using this
  have hne : inputs ≠ [] := by
    intro h; rw [h] at hlen; simp at hlen; omega
  obtain ⟨i1, i2, i3, i4, i5, i6, i7⟩ := hpre (B - 1) (by omega)
  have hsplit : inputs = inputs.take (B - 1) ++ [inputs.getLast hne] := by
    have h1 : inputs.take (B - 1) = inputs.dropLast := by
      rw [List.dropLast_eq_take, hlen]
    rw [h1, List.dropLast_append_getLast]
  have hlast : inputs.getLast hne ∈ inputs := List.getLast_mem hne
  have hrun : appendLines s inputs
      = addToBuffer { appendLines s (inputs.take (B - 1)) with clock := (inputs.getLast hne).1 }
          (inputs.getLast hne).2 := by
    conv_lhs => rw [hsplit]
    rw [appendLines_snoc]
  have htake : (inputs.take (B - 1)).length = B - 1 := by
    rw [List.length_take]; omega
  obtain ⟨t, ht⟩ : ∃ t : XillenLogger,
      t = { appendLines s (inputs.take (B - 1)) with clock := (inputs.getLast hne).1 } :=
    ⟨_, rfl⟩
  have t1 : t.logBuffer = (inputs.take (B - 1)).map Prod.snd := by rw [ht]; exact i1
  have t2 : t.files = s.files := by rw [ht]; exact i2
  have t3 : t.lastFlush = s.lastFlush := by rw [ht]; exact i3
  have t4 : t.flushInterval = s.flushInterval := by rw [ht]; exact i4
  have t5 : t.bufferSize = s.bufferSize := by rw [ht]; exact i5
  have t6 : t.canOpen = s.canOpen := by rw [ht]; exact i6
  have t7 : t.bufferPath = s.bufferPath := by rw [ht]; exact i7
  have t8 : t.clock = (inputs.getLast hne).1 := by rw [ht]
  rw [← ht] at hrun
  obtain ⟨r1, r2⟩ := addToBuffer_reach t (inputs.getLast hne).2
    (by rw [t5, t1, List.length_map, htake, hsize]; omega)
    (by rw [t3, t4, t8]; exact htime _ hlast)
    (by rw [t6, t7]; exact hopen)
  rw [t7, t2, hfile, t1] at r2
  refine ⟨?_, ?_, ?_⟩
  · rw [hrun, r2]
    congr 1
    conv_rhs => rw [hsplit]
    simp
  · rw [hrun, r1]
  · intro k hk
    obtain ⟨j1, j2, -⟩ := hpre k hk
    exact ⟨j2, j1⟩

/-- C5 at threshold two: after two appends the buffer file holds both lines
and the in-memory buffer is empty. -/
theorem addToBuffer_flush_by_count_witness :
    (1 ≤ 2) ∧ ({ syncLogger (fun _ => true) with bufferSize := 2 } : XillenLogger).logBuffer = []
    ∧ (appendLines { syncLogger (fun _ => true) with bufferSize := 2 }
        [(demoClock, "one"), (demoClock + 1, "two")]).files "logs/buffer.log"
        = some ["one", "two"]
    ∧ (appendLines { syncLogger (fun _ => true) with bufferSize := 2 }
        [(demoClock, "one"), (demoClock + 1, "two")]).logBuffer = [] :=
  ⟨by decide, by decide,
    (addToBuffer_flush_by_count { syncLogger (fun _ => true) with bufferSize := 2 } 2
      (by decide) (by decide) (by decide) (by decide) (by decide)
      [(demoClock, "one"), (demoClock + 1, "two")] (by decide) (by decide)).1,
    (addToBuffer_flush_by_count { syncLogger (fun _ => true) with bufferSize := 2 } 2
      (by decide) (by decide) (by decide) (by decide) (by decide)
      [(demoClock, "one"), (demoClock + 1, "two")] (by decide) (by decide)).2.1⟩

/-- C6, evaluated at the failing input: with two lines in the flush buffer and
a buffer file that cannot be opened, `flushBuffer` empties the in-memory
buffer although no line has reached the buffer file. -/
theorem flushBuffer_unopenable_drops_lines :
    unflushed.logBuffer
      = ["2023-11-14 22:13:20.123 [ERROR] [NET] [7] timeout",
         "2023-11-14 22:13:20.123 [CRIT ] [DB] [7] down"]
    ∧ unflushed.canOpen unflushed.bufferPath = false
    ∧ unflushed.flushBuffer.logBuffer = []
    ∧ unflushed.flushBuffer.files unflushed.bufferPath = none := by
  decide

/-- C7, evaluated at the failing input: on a fresh logger (asynchronous, worker
running) with one queued entry, `setAsyncMode false` returns with the mode
synchronous while `running` is still true, the worker thread is still owned
(not joined) and the queued entry has not been handed to `writeLogEntry`. -/
theorem setAsyncMode_false_keeps_worker :
    (fresh.log LogLevel.INFO "APP" "shutting down" "" 0 "1").asyncMode = true
    ∧ (fresh.log LogLevel.INFO "APP" "shutting down" "" 0 "1").running = true
    ∧ ((fresh.log LogLevel.INFO "APP" "shutting down" "" 0 "1").setAsyncMode false).asyncMode
        = false
    ∧ ((fresh.log LogLevel.INFO "APP" "shutting down" "" 0 "1").setAsyncMode false).running
        = true
    ∧ ((fresh.log LogLevel.INFO "APP" "shutting down" "" 0 "1").setAsyncMode false).workerThread
        = some WorkerPc.loopHead
    ∧ ((fresh.log LogLevel.INFO "APP" "shutting down" "" 0 "1").setAsyncMode false).workers = 1
    ∧ ((fresh.log LogLevel.INFO "APP" "shutting down" "" 0 "1").setAsyncMode false).logQueue
        = [lastWords]
    ∧ handedOf
        ((fresh.log LogLevel.INFO "APP" "shutting down" "" 0 "1").setAsyncMode false).trace
        = [] := by
  decide

/-- C8, evaluated at the failing input: after `setAsyncMode false` and then
`setAsyncMode true` on a fresh logger two worker threads have been started and
none joined, and the second start has run into `std::terminate`. -/
theorem setAsyncMode_twice_two_workers :
    fresh.workers = 1
    ∧ (fresh.setAsyncMode false).workers = 1
    ∧ ((fresh.setAsyncMode false).setAsyncMode true).workers = 2
    ∧ ((fresh.setAsyncMode false).setAsyncMode true).terminated = true
    ∧ fresh.startWorkerThread.workers = 2 := by
  decide

/-- C10, evaluated at the failing input: when the worker has not yet tested
`running` (it is at the head of its loop), an entry is queued and `stop` is
called, the worker leaves its loop at once; `stop` has joined it while the
entry is still in the queue and has never been handed to `writeLogEntry`.
When the worker had reached `cv.wait` before, the same calls deliver it. -/
theorem stop_leaves_entry_queued :
    (run fresh [Action.log LogLevel.INFO "APP" "shutting down" "" 0 "1"]).workerThread
      = some WorkerPc.loopHead
    ∧ (runWorker 5
        { run fresh [Action.log LogLevel.INFO "APP" "shutting down" "" 0 "1"] with
          running := false }).workerThread = some WorkerPc.exited
    ∧ (run fresh [Action.log LogLevel.INFO "APP" "shutting down" "" 0 "1"]).stop.workerThread
        = none
    ∧ (run fresh [Action.log LogLevel.INFO "APP" "shutting down" "" 0 "1"]).stop.workers = 0
    ∧ (run fresh [Action.log LogLevel.INFO "APP" "shutting down" "" 0 "1"]).stop.logQueue
        = [lastWords]
    ∧ queuedOf (run fresh [Action.log LogLevel.INFO "APP" "shutting down" "" 0 "1"]).stop.trace
        = [lastWords]
    ∧ handedOf (run fresh [Action.log LogLevel.INFO "APP" "shutting down" "" 0 "1"]).stop.trace
        = []
    ∧ handedOf (run fresh
        [Action.worker, Action.log LogLevel.INFO "APP" "shutting down" "" 0 "1"]).stop.trace
        = [lastWords] := by
  decide

/-! ## The worker -/

theorem popOrLeave_delivering (s : XillenLogger) (h : Delivering s) (hin : inFlight s = []) :
    Delivering (popOrLeave s) ∧ (popOrLeave s).trace = s.trace
    ∧ (popOrLeave s).minLevel = s.minLevel ∧ (popOrLeave s).clock = s.clock
    ∧ (s.logQueue ≠ [] → stepsToDeliver (popOrLeave s) + 1 = 2 * s.logQueue.length) := by
  obtain ⟨h1, h2, -, h4⟩ := h
  rw [hin] at h4
  unfold popOrLeave
  cases hq : s.logQueue with
  | nil =>
    rw [hq] at h4
    refine ⟨⟨h1, h2, ⟨_, rfl, by simp⟩, ?_⟩, rfl, rfl, rfl, by simp⟩
    simpa [inFlight] using h4
  | cons e rest =>
    rw [hq] at h4
    refine ⟨⟨h1, h2, ⟨_, rfl, by simp⟩, ?_⟩, rfl, rfl, rfl, ?_⟩
    · simpa [inFlight] using h4
    · intro _
      simp [stepsToDeliver]
      omega

/-- One worker step from a state satisfying the invariant. -/
theorem workerStep_delivering (s s1 : XillenLogger) (h : Delivering s)
    (hstep : workerStep s = some s1) :
    Delivering s1 ∧ queuedOf s1.trace = queuedOf s.trace
    ∧ s1.minLevel = s.minLevel ∧ s1.clock = s.clock
    ∧ (1 ≤ stepsToDeliver s → stepsToDeliver s1 + 1 = stepsToDeliver s)
    ∧ (stepsToDeliver s = 0 → handedOf s1.trace = handedOf s.trace ∧ stepsToDeliver s1 ≤ 1
        ∧ s1.logQueue = [] ∧ inFlight s1 = []) := by
  have hD := h
  obtain ⟨h1, h2, ⟨pc, hpc, hne⟩, h4⟩ := h
  unfold workerStep at hstep
  rw [hpc] at hstep
  cases pc with
  | loopHead =>
    rw [if_pos h2] at hstep
    simp only [Option.some.injEq] at hstep
    subst hstep
    refine ⟨⟨h1, h2, ⟨_, rfl, by simp⟩, ?_⟩, rfl, rfl, rfl, ?_, ?_⟩
    · simpa [inFlight, hpc] using h4
    · intro _; simp [stepsToDeliver, hpc]
    · intro h0; simp [stepsToDeliver, hpc] at h0
  | waiting =>
    have hin : inFlight s = [] := by simp [inFlight, hpc]
    by_cases hq : s.logQueue ≠ []
    · rw [if_pos (Or.inl hq)] at hstep
      simp only [Option.some.injEq] at hstep
      subst hstep
      obtain ⟨p1, p2, p3, p4, p5⟩ := popOrLeave_delivering s hD hin
      refine ⟨p1, by rw [p2], p3, p4, ?_, ?_⟩
      · intro _
        have := p5 hq
        simp only [stepsToDeliver, hpc]
        simp only [stepsToDeliver] at this
        exact this
      · intro h0
        exfalso
        simp only [stepsToDeliver, hpc] at h0
        have : s.logQueue.length = 0 := by omega
        exact hq (List.length_eq_zero.mp this)
    · simp [hq, h2] at hstep
  | writing e =>
    simp only [Option.some.injEq] at hstep
    subst hstep
    obtain ⟨f, -, -, q, hd⟩ := writeLogEntry_effects s e
    have hlq : (writeLogEntry s e).logQueue = s.logQueue := f.2.2.2.2.2.2.1
    refine ⟨⟨f.2.2.2.2.2.1.trans h1, f.2.2.2.2.2.2.2.2.1.trans h2, ⟨_, rfl, by simp⟩, ?_⟩,
      q, f.2.2.1, f.2.2.2.2.2.2.2.2.2.2.2.2.2.2.2.1, ?_, ?_⟩
    · simp only [inFlight, List.append_nil]
      rw [hd, hlq, q, ← h4]
      simp [inFlight, hpc]
    · intro _
      simp only [stepsToDeliver, hpc, hlq]
    · intro h0; simp [stepsToDeliver, hpc] at h0
  | relock =>
    have hin : inFlight s = [] := by simp [inFlight, hpc]
    simp only [Option.some.injEq] at hstep
    subst hstep
    obtain ⟨p1, p2, p3, p4, p5⟩ := popOrLeave_delivering s hD hin
    refine ⟨p1, by rw [p2], p3, p4, ?_, ?_⟩
    · intro hpos
      simp only [stepsToDeliver, hpc] at hpos
      have hq : s.logQueue ≠ [] := by
        intro hq; rw [hq] at hpos; simp at hpos
      have := p5 hq
      simp only [stepsToDeliver, hpc]
      simp only [stepsToDeliver] at this
      exact this
    · intro h0
      simp only [stepsToDeliver, hpc] at h0
      have hq : s.logQueue = [] := List.length_eq_zero.mp (by omega)
      rw [p2]
      simp [popOrLeave, hq, stepsToDeliver, inFlight]
  | exited => exact absurd rfl hne

/-- A blocked worker under the invariant has nothing left to deliver. -/
theorem workerStep_none_delivered (s : XillenLogger) (h : Delivering s)
    (hstep : workerStep s = none) : handedOf s.trace = queuedOf s.trace := by
  obtain ⟨h1, h2, ⟨pc, hpc, hne⟩, h4⟩ := h
  unfold workerStep at hstep
  rw [hpc] at hstep
  cases pc with
  | loopHead => simp [h2] at hstep
  | waiting =>
    by_cases hq : s.logQueue = []
    · simpa [inFlight, hpc, hq] using h4
    · simp [hq] at hstep
  | writing e => simp at hstep
  | relock => simp at hstep
  | exited => exact absurd rfl hne

theorem runWorker_idle (n : Nat) :
    ∀ s : XillenLogger, Delivering s → s.logQueue = [] → inFlight s = [] →
      handedOf (runWorker n s).trace = queuedOf s.trace := by
  induction n with
  | zero =>
    intro s h hq hin
    have := h.2.2.2
    simpa [runWorker, hq, hin] using this
  | succ n ih =>
    intro s h hq hin
    simp only [runWorker]
    cases hstep : workerStep s with
    | none => exact workerStep_none_delivered s h hstep
    | some s1 =>
      simp only
      obtain ⟨d1, d2, -, -, d5, d6⟩ := workerStep_delivering s s1 h hstep
      have hdone : handedOf s.trace = queuedOf s.trace := by
        have := h.2.2.2
        simpa [hq, hin] using this
      by_cases h0 : stepsToDeliver s = 0
      · obtain ⟨e1, -, e3, e4⟩ := d6 h0
        rw [ih s1 d1 e3 e4, d2]
      · -- the worker is at the head of its loop with an empty queue
        have hs1 := d5 (by omega)
        have hlen : stepsToDeliver s ≤ 1 := by
          unfold stepsToDeliver
          split <;> simp [hq]
        have h10 : stepsToDeliver s1 = 0 := by omega
        have hq1 : s1.logQueue = [] := by
          unfold stepsToDeliver at h10
          split at h10 <;> first | omega | exact List.length_eq_zero.mp (by omega)
        have hin1 : inFlight s1 = [] := by
          unfold stepsToDeliver at h10
          unfold inFlight
          split at h10 <;> first | omega | simp_all
        rw [ih s1 d1 hq1 hin1, d2]

theorem runWorker_delivers (n : Nat) :
    ∀ s : XillenLogger, Delivering s → stepsToDeliver s ≤ n →
      handedOf (runWorker n s).trace = queuedOf s.trace := by
  induction n with
  | zero =>
    intro s h hn
    have h0 : stepsToDeliver s = 0 := by omega
    have hq : s.logQueue = [] := by
      unfold stepsToDeliver at h0
      split at h0 <;> first | omega | exact List.length_eq_zero.mp (by omega)
    have hin : inFlight s = [] := by
      unfold stepsToDeliver at h0
      unfold inFlight
      split at h0 <;> first | omega | simp_all
    exact runWorker_idle 0 s h hq hin
  | succ n ih =>
    intro s h hn
    simp only [runWorker]
    cases hstep : workerStep s with
    | none => exact workerStep_none_delivered s h hstep
    | some s1 =>
      simp only
      obtain ⟨d1, d2, -, -, d5, d6⟩ := workerStep_delivering s s1 h hstep
      by_cases h0 : stepsToDeliver s = 0
      · obtain ⟨-, -, e3, e4⟩ := d6 h0
        rw [runWorker_idle n s1 d1 e3 e4, d2]
      · have := d5 (by omega)
        rw [ih s1 d1 (by omega), d2]

theorem step_delivering (s : XillenLogger) (a : Action) (h : Delivering s) :
    Delivering (step s a)
    ∧ queuedOf (step s a).trace ++ passed (step s a).minLevel (step s a).clock []
        = queuedOf s.trace ++ passed s.minLevel s.clock [a]
    ∧ (step s a).minLevel = s.minLevel
    ∧ ∀ rest, passed s.minLevel s.clock (a :: rest)
        = passed s.minLevel s.clock [a] ++ passed s.minLevel (step s a).clock rest := by
  cases a with
  | log level source message fileName lineNumber tid =>
    obtain ⟨h1, h2, h3, h4⟩ := h
    by_cases hl : level.val < s.minLevel.val
    · have hs : step s (Action.log level source message fileName lineNumber tid) = s := by
        simp [step, log, hl]
      rw [hs]
      refine ⟨⟨h1, h2, h3, h4⟩, by simp [passed, hl], rfl, ?_⟩
      intro rest; simp [passed, hl]
    · have hs : step s (Action.log level source message fileName lineNumber tid)
          = { s with
              logQueue := s.logQueue
                ++ [LogEntry.create s.clock tid level source message fileName lineNumber]
              trace := s.trace
                ++ [Event.queued
                      (LogEntry.create s.clock tid level source message fileName lineNumber)] } := by
        simp [step, log, hl, h1]
      rw [hs]
      refine ⟨⟨h1, h2, h3, ?_⟩, ?_, rfl, ?_⟩
      · have hin : inFlight
            { s with
              logQueue := s.logQueue
                ++ [LogEntry.create s.clock tid level source message fileName lineNumber]
              trace := s.trace
                ++ [Event.queued
                      (LogEntry.create s.clock tid level source message fileName lineNumber)] }
            = inFlight s := rfl
        rw [hin]
        simp only [handedOf_append, queuedOf_append]
        rw [← h4]
        simp [handedOf, queuedOf]
      · simp only [queuedOf_append]
        simp [passed, hl, queuedOf]
      · intro rest; simp [passed, hl]
  | worker =>
    cases hstep : workerStep s with
    | none =>
      have hs : step s Action.worker = s := by simp [step, hstep]
      rw [hs]
      exact ⟨h, by simp [passed], rfl, fun rest => by simp [passed]⟩
    | some s1 =>
      have hs : step s Action.worker = s1 := by simp [step, hstep]
      rw [hs]
      obtain ⟨d1, d2, d3, d4, -, -⟩ := workerStep_delivering s s1 h hstep
      refine ⟨d1, by rw [d2]; simp [passed], d3, ?_⟩
      intro rest; rw [d4]; simp [passed]
  | tick now =>
    obtain ⟨h1, h2, h3, h4⟩ := h
    refine ⟨⟨h1, h2, h3, h4⟩, by simp [step, passed], rfl, ?_⟩
    intro rest; simp [step, passed]

theorem run_delivering (acts : List Action) :
    ∀ s : XillenLogger, Delivering s →
      Delivering (run s acts)
      ∧ queuedOf (run s acts).trace = queuedOf s.trace ++ passed s.minLevel s.clock acts := by
  induction acts with
  | nil => intro s h; exact ⟨h, by simp [run, passed]⟩
  | cons a rest ih =>
    intro s h
    obtain ⟨d1, d2, d3, d4⟩ := step_delivering s a h
    obtain ⟨i1, i2⟩ := ih (step s a) d1
    have hrun : run s (a :: rest) = run (step s a) rest := rfl
    rw [hrun]
    refine ⟨i1, ?_⟩
    rw [i2, d4 rest, d3, ← List.append_assoc, ← d2]
    simp [passed]

/-- C4.  Start from a logger in asynchronous mode whose worker has just been
started and whose queue is empty (the state the constructor leaves), and let
producers call `log` and the worker take steps in any interleaving, with the
clock advancing at will.  At every moment the entries handed to
`writeLogEntry`, then the entry the worker holds, then the queue, are exactly
the entries that the `log` calls built and that passed the filter, in call
order; and when the worker then runs on for two steps per queued entry and
two more, the entries handed to `writeLogEntry` are exactly those entries, in
that order, each once. -/
theorem worker_fifo (s0 : XillenLogger) (acts : List Action)
    (hmode : s0.asyncMode = true) (hrunning : s0.running = true)
    (hworker : s0.workerThread = some WorkerPc.loopHead)
    (hqueue : s0.logQueue = []) (htrace : s0.trace = []) :
    handedOf (run s0 acts).trace ++ inFlight (run s0 acts) ++ (run s0 acts).logQueue
      = passed s0.minLevel s0.clock acts
    ∧ handedOf (runWorker (2 * (run s0 acts).logQueue.length + 2) (run s0 acts)).trace
      = passed s0.minLevel s0.clock acts := by
  have h0 : Delivering s0 := by
    refine ⟨hmode, hrunning, ⟨_, hworker, by simp⟩, ?_⟩
    simp [htrace, hqueue, inFlight, hworker, handedOf, queuedOf]
  obtain ⟨d1, d2⟩ := run_delivering acts s0 h0
  have hq : queuedOf (run s0 acts).trace = passed s0.minLevel s0.clock acts := by
    rw [d2, htrace]; simp [queuedOf]
  refine ⟨?_, ?_⟩
  · rw [d1.2.2.2, hq]
  · rw [runWorker_delivers _ _ d1 ?_, hq]
    unfold stepsToDeliver
    split <;> omega

/-- C4 at a fresh logger and a schedule with two passing calls: the worker
hands over exactly the two entries, in call order. -/
theorem worker_fifo_witness :
    fresh.asyncMode = true ∧ fresh.running = true
    ∧ fresh.workerThread = some WorkerPc.loopHead ∧ fresh.logQueue = [] ∧ fresh.trace = []
    ∧ handedOf (runWorker (2 * (run fresh demoSchedule).logQueue.length + 2)
        (run fresh demoSchedule)).trace
      = [LogEntry.create demoClock "1" LogLevel.INFO "APP" "first" "" 0,
         LogEntry.create (demoClock + 5) "1" LogLevel.ERROR "APP" "second" "main.cpp" 17] :=
  ⟨by decide, by decide, by decide, by decide, by decide,
    (worker_fifo fresh demoSchedule (by decide) (by decide) (by decide) (by decide)
      (by decide)).2.trans (by decide)⟩

/-- Once `running` is false the worker returns within `stepsToExit` steps, so
the step budget of `join` is never exhausted. -/
theorem runWorker_exits (n : Nat) :
    ∀ (s : XillenLogger) (pc : WorkerPc), s.running = false → s.workerThread = some pc →
      stepsToExit s ≤ n → (runWorker n s).workerThread = some WorkerPc.exited := by
  induction n with
  | zero =>
    intro s pc _ hpc hn
    cases pc <;> simp [stepsToExit, hpc] at hn
    simpa [runWorker] using hpc
  | succ n ih =>
    intro s pc hr hpc hn
    simp only [runWorker]
    cases pc with
    | loopHead =>
      have hs : workerStep s = some { s with workerThread := some WorkerPc.exited } := by
        simp [workerStep, hpc, hr]
      rw [hs]
      exact ih _ WorkerPc.exited hr rfl (by simp [stepsToExit])
    | waiting =>
      have hs : workerStep s = some (popOrLeave s) := by
        simp [workerStep, hpc, hr]
      rw [hs]
      simp only [stepsToExit, hpc] at hn
      cases hq : s.logQueue with
      | nil =>
        exact ih _ WorkerPc.loopHead (by simp [popOrLeave, hq, hr]) (by simp [popOrLeave, hq])
          (by simp [popOrLeave, hq, stepsToExit]; omega)
      | cons e rest =>
        rw [hq] at hn
        simp only [List.length_cons] at hn
        exact ih _ (WorkerPc.writing e) (by simp [popOrLeave, hq, hr]) (by simp [popOrLeave, hq])
          (by simp [popOrLeave, hq, stepsToExit]; omega)
    | writing e =>
      have hs : workerStep s
          = some { writeLogEntry s e with workerThread := some WorkerPc.relock } := by
        simp [workerStep, hpc]
      rw [hs]
      obtain ⟨f, -⟩ := writeLogEntry_effects s e
      simp only [stepsToExit, hpc] at hn
      exact ih _ WorkerPc.relock (f.2.2.2.2.2.2.2.2.1.trans hr) rfl
        (by simp only [stepsToExit]; rw [f.2.2.2.2.2.2.1]; omega)
    | relock =>
      have hs : workerStep s = some (popOrLeave s) := by
        simp [workerStep, hpc]
      rw [hs]
      simp only [stepsToExit, hpc] at hn
      cases hq : s.logQueue with
      | nil =>
        exact ih _ WorkerPc.loopHead (by simp [popOrLeave, hq, hr]) (by simp [popOrLeave, hq])
          (by simp [popOrLeave, hq, stepsToExit]; omega)
      | cons e rest =>
        rw [hq] at hn
        simp only [List.length_cons] at hn
        exact ih _ (WorkerPc.writing e) (by simp [popOrLeave, hq, hr]) (by simp [popOrLeave, hq])
          (by simp [popOrLeave, hq, stepsToExit]; omega)
    | exited =>
      have hs : workerStep s = none := by simp [workerStep, hpc]
      rw [hs]
      exact hpc

/-- The worker has returned when `join` hands the thread back. -/
theorem join_waits_for_exit (s : XillenLogger) (pc : WorkerPc) (hr : s.running = false)
    (hpc : s.workerThread = some pc) :
    (runWorker (2 * s.logQueue.length + 3) s).workerThread = some WorkerPc.exited := by
  apply runWorker_exits _ s pc hr hpc
  unfold stepsToExit
  split <;> omega

/-! ## Rotation from the file sink -/

theorem getFileHandle_files_other (s : XillenLogger) (p q : String) (h : q ≠ p) :
    (getFileHandle s p).files q = s.files q := by
  unfold getFileHandle
  split
  · rfl
  · split
    · simp only; rw [Function.update_noteq h]
    · rfl

theorem getFileHandle_files_self (s : XillenLogger) (p : String) :
    (getFileHandle s p).files p = s.files p
    ∨ (getFileHandle s p).files p = some ((s.files p).getD []) := by
  unfold getFileHandle
  split
  · exact Or.inl rfl
  · split
    · right; simp
    · left; rfl

theorem streamLine_files_other (s : XillenLogger) (p q line : String) (h : q ≠ p) :
    (streamLine s p line).files q = s.files q := by
  unfold streamLine
  simp only
  split
  · simp only; rw [Function.update_noteq h]
  · rfl

theorem streamLine_files_self (s : XillenLogger) (p line : String) (c : List String)
    (h : (streamLine s p line).files p = some c) :
    ∃ c0, s.files p = some c0 ∧ c = c0 ++ [line] := by
  unfold streamLine at h
  simp only at h
  cases hc : s.files p with
  | none => simp [hc] at h
  | some c0 =>
    simp [hc] at h
    exact ⟨c0, rfl, h.symm⟩

/-- One file-sink write when two rotated files are kept and renames succeed:
either it does not rotate and leaves every file but the active one alone, or
it rotates, after which the active file is gone, `.1` holds what the active
file held plus the new line, and `.2` holds what `.1` held. -/
theorem writeToFile_step (s : XillenLogger) (msg : String) (hmax : s.maxFiles = 2)
    (hren : ∀ a b, s.canRename a b = true) :
    Frame s (writeToFile s msg)
    ∧ ((rotations s.activePath (writeToFile s msg).trace = rotations s.activePath s.trace
        ∧ ∀ q, q ≠ s.activePath → (writeToFile s msg).files q = s.files q)
      ∨ (rotations s.activePath (writeToFile s msg).trace = rotations s.activePath s.trace + 1
        ∧ (writeToFile s msg).files s.activePath = none
        ∧ (writeToFile s msg).files (rotated s.activePath 1)
            = some ((s.files s.activePath).getD [] ++ [msg])
        ∧ ∀ c1, s.files (rotated s.activePath 1) = some c1 →
            (writeToFile s msg).files (rotated s.activePath 2) = some c1)) := by
  refine ⟨(writeToFile_frame s msg).1, ?_⟩
  unfold writeToFile
  simp only
  obtain ⟨g1, g2, -, -, -⟩ := getFileHandle_frame s s.activePath
  have gother := getFileHandle_files_other s s.activePath
  have gself := getFileHandle_files_self s s.activePath
  generalize getFileHandle s s.activePath = s1 at *
  by_cases ho : s1.fileHandles s.activePath = some true
  · rw [if_pos ho]
    obtain ⟨l1, l2, -, -, -, -⟩ := streamLine_frame s1 s.activePath msg
    have lother := fun q h => streamLine_files_other s1 s.activePath q msg h
    have lself := streamLine_files_self s1 s.activePath msg
    generalize streamLine s1 s.activePath msg = s2 at *
    have hrot2 : rotations s.activePath s2.trace = rotations s.activePath s.trace := by
      rw [l2, g2, rotations_append]; simp [rotations]
    by_cases hr : shouldRotateFile s2 s.activePath = true
    · rw [if_pos hr]
      right
      have hex : ∃ c, s2.files s.activePath = some c := by
        unfold shouldRotateFile at hr
        cases hc : s2.files s.activePath with
        | none => simp [hc] at hr
        | some c => exact ⟨c, rfl⟩
      obtain ⟨c, hc⟩ := hex
      obtain ⟨c0, hc0, hcc⟩ := lself c hc
      have hf12 : Frame s s2 := g1.trans l1
      have hren2 : ∀ a b, s2.canRename a b = true := by
        intro a b
        have : s2.canRename = s.canRename := hf12.2.2.2.2.2.2.2.2.2.2.2.2.2.2.1
        rw [this]; exact hren a b
      have hmax2 : s2.maxFiles = 2 := (hf12.2.2.2.2.2.2.2.2.2.2.1).trans hmax
      obtain ⟨-, -, -, r4, r5, r6, -⟩ := rotateFile_effect s2 s.activePath c hc hren2
        (by rw [hmax2]; decide) (by rw [hmax2]; decide)
      obtain ⟨-, -, -, r8⟩ := rotateFile_readings s2 s.activePath s.activePath
      refine ⟨?_, r6, ?_, ?_⟩
      · rw [r8, hrot2]; simp
      · rw [rotated_one, r5, hcc]
        rcases gself with hg | hg
        · rw [hg] at hc0; rw [hc0]; rfl
        · rw [hg] at hc0
          simp only [Option.some.injEq] at hc0
          rw [hc0]
      · intro c1 hc1
        have h1 : s2.files (rotated s.activePath 1) = some c1 := by
          rw [lother _ (rotated_ne_self _ 1), gother _ (rotated_ne_self _ 1)]
          exact hc1
        have := r4 1 c1 (by decide) (by rw [hmax2]; decide) h1
        simpa using this
    · rw [if_neg hr]
      left
      refine ⟨hrot2, ?_⟩
      intro q hq
      rw [lother q hq, gother q hq]
  · rw [if_neg ho]
    left
    refine ⟨by rw [g2], ?_⟩
    intro q hq
    exact gother q hq

theorem writeAll_snoc (s : XillenLogger) (ws : List String) (w : String) :
    writeAll s (ws ++ [w]) = writeToFile (writeAll s ws) w := by
  simp [writeAll, List.foldl_append]

theorem writeAll_invariant (s0 : XillenLogger) (hmax : s0.maxFiles = 2)
    (hren : ∀ a b, s0.canRename a b = true) (ws : List String) :
    Frame s0 (writeAll s0 ws)
    ∧ (rotations s0.activePath s0.trace < rotations s0.activePath (writeAll s0 ws).trace →
        ∃ c1, (writeAll s0 ws).files (rotated s0.activePath 1) = some c1) := by
  induction ws using List.reverseRecOn with
  | nil => exact ⟨Frame.refl s0, fun h => absurd h (lt_irrefl _)⟩
  | append_singleton ws w ih =>
    obtain ⟨f, hone⟩ := ih
    rw [writeAll_snoc]
    have hap : (writeAll s0 ws).activePath = s0.activePath := f.activePath
    have hmax1 : (writeAll s0 ws).maxFiles = 2 := (f.2.2.2.2.2.2.2.2.2.2.1).trans hmax
    have hren1 : ∀ a b, (writeAll s0 ws).canRename a b = true := by
      intro a b
      have : (writeAll s0 ws).canRename = s0.canRename := f.2.2.2.2.2.2.2.2.2.2.2.2.2.2.1
      rw [this]; exact hren a b
    obtain ⟨fw, hcase⟩ := writeToFile_step (writeAll s0 ws) w hmax1 hren1
    rw [hap] at hcase
    refine ⟨f.trans fw, ?_⟩
    intro hlt
    rcases hcase with ⟨hr, hother⟩ | ⟨-, -, h1, -⟩
    · rw [hr] at hlt
      obtain ⟨c1, hc1⟩ := hone hlt
      exact ⟨c1, by rw [hother _ (rotated_ne_self _ 1)]; exact hc1⟩
    · exact ⟨_, h1⟩

/-- C9 (amended).  Keep two rotated files and let every rename succeed.  For
every run of file-sink writes during which the active file is rotated once,
and every further write that rotates it a second time: right after that
second rotation the active file is absent, `active.1` holds what the active
file held plus the line just written, and `active.2` holds exactly the
content `active.1` held just before the second rotation. -/
theorem rotation_twice (s0 : XillenLogger) (ws : List String) (m : String)
    (hmax : s0.maxFiles = 2) (hren : ∀ a b, s0.canRename a b = true)
    (hfirst : rotations s0.activePath (writeAll s0 ws).trace
      = rotations s0.activePath s0.trace + 1)
    (hsecond : rotations s0.activePath (writeToFile (writeAll s0 ws) m).trace
      = rotations s0.activePath s0.trace + 2) :
    (writeToFile (writeAll s0 ws) m).files s0.activePath = none
    ∧ (writeToFile (writeAll s0 ws) m).files (rotated s0.activePath 1)
        = some (((writeAll s0 ws).files s0.activePath).getD [] ++ [m])
    ∧ ∃ c1, (writeAll s0 ws).files (rotated s0.activePath 1) = some c1
        ∧ (writeToFile (writeAll s0 ws) m).files (rotated s0.activePath 2) = some c1 := by
  obtain ⟨f, hone⟩ := writeAll_invariant s0 hmax hren ws
  obtain ⟨c1, hc1⟩ := hone (by omega)
  have hap : (writeAll s0 ws).activePath = s0.activePath := f.activePath
  have hmax1 : (writeAll s0 ws).maxFiles = 2 := (f.2.2.2.2.2.2.2.2.2.2.1).trans hmax
  have hren1 : ∀ a b, (writeAll s0 ws).canRename a b = true := by
    intro a b
    have : (writeAll s0 ws).canRename = s0.canRename := f.2.2.2.2.2.2.2.2.2.2.2.2.2.2.1
    rw [this]; exact hren a b
  obtain ⟨-, hcase⟩ := writeToFile_step (writeAll s0 ws) m hmax1 hren1
  rw [hap] at hcase
  rcases hcase with ⟨hr, -⟩ | ⟨-, h0, h1, h2⟩
  · omega
  · exact ⟨h0, h1, c1, hc1, h2 c1 hc1⟩

/-- C9 as stated fails: after two rotations from no log files the active file
does not exist (so it has no size to compare with the limit); the two rotated
files do, `active.2` holding what `active.1` held before. -/
theorem rotation_twice_active_absent :
    smallFiles.files "logs/application.log" = none
    ∧ rotations "logs/application.log" (writeAll smallFiles ["0123456789"]).trace = 1
    ∧ (writeAll smallFiles ["0123456789"]).files "logs/application.log.1"
        = some ["0123456789"]
    ∧ rotations "logs/application.log"
        (writeAll smallFiles ["0123456789", "abcdefghij"]).trace = 2
    ∧ (writeAll smallFiles ["0123456789", "abcdefghij"]).files "logs/application.log" = none
    ∧ (writeAll smallFiles ["0123456789", "abcdefghij"]).files "logs/application.log.1"
        = some ["abcdefghij"]
    ∧ (writeAll smallFiles ["0123456789", "abcdefghij"]).files "logs/application.log.2"
        = some ["0123456789"] := by
  decide

/-- C9 (amended) at a logger rotating at ten bytes, two eleven-byte writes. -/
theorem rotation_twice_witness :
    smallFiles.maxFiles = 2 ∧ (∀ a b, smallFiles.canRename a b = true)
    ∧ rotations smallFiles.activePath (writeAll smallFiles ["0123456789"]).trace
        = rotations smallFiles.activePath smallFiles.trace + 1
    ∧ rotations smallFiles.activePath
        (writeToFile (writeAll smallFiles ["0123456789"]) "abcdefghij").trace
        = rotations smallFiles.activePath smallFiles.trace + 2
    ∧ (writeToFile (writeAll smallFiles ["0123456789"]) "abcdefghij").files
        smallFiles.activePath = none :=
  ⟨by decide, fun _ _ => rfl, by decide, by decide,
    (rotation_twice smallFiles ["0123456789"] "abcdefghij" (by decide) (fun _ _ => rfl)
      (by decide) (by decide)).1⟩

end Xillen
